import Mathlib

/-!
# Verification of the OS teaching kernel and file system

A shallow embedding, in Lean 4, of the components of the repository that the
checked properties talk about:

* the JOS-style kernel system-call layer (`src/unnamed/part_000`): the
  permission-word validator `check_perm`, the system calls `sys_page_alloc`
  and `sys_ipc_try_send`, and the numeric dispatcher `syscall`;
* the user-library bounded string copy `strlcpy`
  (`src/JOS/lab5/obj/user/icode.asm`, interleaved source);
* the xv6-style on-disk file system (`src/xV6/fs.c`): block allocator
  `balloc`, block mapping `bmap`, file data I/O `readi`/`writei`, the
  directory layer `dirlookup`/`dirlink`, and path resolution
  `skipelem`/`namex`/`namei`/`nameiparent`.

Machine integers are embedded as `Nat` with explicit `% 2^32` where the C
code's unsigned wrap-around is observable.  C functions that can `panic`
return `Option` (`none` = the panic path); functions returning `-1`/error
codes return an explicit result constructor.  Kernel-internal boundary
services whose implementations are outside this source slice (the
environment table, the physical page allocator, page-table
insertion/lookup, the buffer cache) are modelled from the contracts stated
in the specification; each such definition carries a doc comment saying so.
-/

set_option maxHeartbeats 1000000

namespace OS

/-! ## C standard-library primitive: `strlcpy`

From the user-library source interleaved in
`src/JOS/lab5/obj/user/icode.asm` (lines 1511-1569):

```
size_t strlcpy(char *dst, const char *src, size_t size) {
    char *dst_in;
    dst_in = dst;
    if (size > 0) {
        while (--size > 0 && *src != (char)0)
            *dst++ = *src++;
        *dst = (char)0;
    }
    return dst - dst_in;
}
```

A C string is embedded as the `List Nat` of its bytes before the
terminating zero; reading at or past the end of the list reads the
terminator. -/

/-- `strlen` of an embedded C string: the number of bytes before the first
zero byte (a zero stored inside the list also terminates, as in C). -/
def cstrlen : List Nat → Nat
  | [] => 0
  | c :: cs => if c = 0 then 0 else cstrlen cs + 1

/-- The copy loop of `strlcpy`: `while (--size > 0 && *src != 0) *dst++ = *src++;`
entered with `size > 0`.  `budget` is the number of times the decremented
`size` is still positive, i.e. the initial `size - 1`.  Returns the bytes
copied to `dst` (the terminator byte is appended by the caller). -/
def strlcpyLoop : List Nat → Nat → List Nat
  | _, 0 => []
  | [], _ + 1 => []
  | c :: cs, budget + 1 => if c = 0 then [] else c :: strlcpyLoop cs budget

/-- `strlcpy`, embedded as a function from the source string and the
capacity `size` to the pair of (all bytes stored through `dst`, including
the final terminator when `size > 0`) and the return value `dst - dst_in`
(the number of bytes copied, not counting the terminator: the C code does
not advance `dst` when storing the terminator). -/
def strlcpy (src : List Nat) (size : Nat) : List Nat × Nat :=
  if size = 0 then ([], 0)
  else
    let copied := strlcpyLoop src (size - 1)
    (copied ++ [0], copied.length)

/-! ## Kernel system-call dispatcher

From `src/unnamed/part_000`, lines 477-524.  The switch over `syscallno`
contains cases for thirteen of the fourteen system calls; there is no
`case SYS_env_set_trapframe`, so that call number falls out of the switch
to the trailing `return 0`. -/

/-- System-call number `SYS_cputs`.  Modelled from the spec: the numeric
identifiers live in `inc/syscall.h`, which is not part of the source
slice; the specification's interface table fixes them as 0..13 in this
order. -/
def SYS_cputs : Nat := 0

/-- System-call number `SYS_cgetc` (see `SYS_cputs`). -/
def SYS_cgetc : Nat := 1

/-- System-call number `SYS_getenvid` (see `SYS_cputs`). -/
def SYS_getenvid : Nat := 2

/-- System-call number `SYS_env_destroy` (see `SYS_cputs`). -/
def SYS_env_destroy : Nat := 3

/-- System-call number `SYS_page_alloc` (see `SYS_cputs`). -/
def SYS_page_alloc : Nat := 4

/-- System-call number `SYS_page_map` (see `SYS_cputs`). -/
def SYS_page_map : Nat := 5

/-- System-call number `SYS_page_unmap` (see `SYS_cputs`). -/
def SYS_page_unmap : Nat := 6

/-- System-call number `SYS_exofork` (see `SYS_cputs`). -/
def SYS_exofork : Nat := 7

/-- System-call number `SYS_env_set_status` (see `SYS_cputs`). -/
def SYS_env_set_status : Nat := 8

/-- System-call number `SYS_env_set_trapframe` (see `SYS_cputs`). -/
def SYS_env_set_trapframe : Nat := 9

/-- System-call number `SYS_env_set_pgfault_upcall` (see `SYS_cputs`). -/
def SYS_env_set_pgfault_upcall : Nat := 10

/-- System-call number `SYS_yield` (see `SYS_cputs`). -/
def SYS_yield : Nat := 11

/-- System-call number `SYS_ipc_try_send` (see `SYS_cputs`). -/
def SYS_ipc_try_send : Nat := 12

/-- System-call number `SYS_ipc_recv` (see `SYS_cputs`). -/
def SYS_ipc_recv : Nat := 13

/-- The kernel operation a system-call number is routed to by the
dispatcher `syscall`.  `unknown_return0` is the control path that falls
out of the switch and executes the trailing `return 0`.  The constructor
`env_set_trapframe` stands for invoking the kernel stub
`sys_env_set_trapframe` (whose body is an unconditional fatal panic in
this slice); the embedding of the switch below never produces it, because
the source switch has no case for that number. -/
inductive KernelCall where
  | cputs
  | cgetc
  | getenvid
  | env_destroy
  | yield
  | exofork
  | page_alloc
  | page_map
  | page_unmap
  | env_set_status
  | env_set_trapframe
  | env_set_pgfault_upcall
  | ipc_try_send
  | ipc_recv
  | unknown_return0
deriving DecidableEq

/-- Shallow embedding of the dispatch switch in `syscall`
(`src/unnamed/part_000` lines 482-523): which kernel operation a call
number reaches.  The `SYS_yield` case of the source has no `break`, but
`sys_yield` never returns (`sched_yield` reschedules), so the fall-through
into the `SYS_exofork` case is dead code and `SYS_yield` is routed to the
yield operation. -/
def syscallTarget (no : Nat) : KernelCall :=
  if no = SYS_cputs then .cputs
  else if no = SYS_cgetc then .cgetc
  else if no = SYS_getenvid then .getenvid
  else if no = SYS_env_destroy then .env_destroy
  else if no = SYS_yield then .yield
  else if no = SYS_exofork then .exofork
  else if no = SYS_page_alloc then .page_alloc
  else if no = SYS_page_map then .page_map
  else if no = SYS_page_unmap then .page_unmap
  else if no = SYS_env_set_status then .env_set_status
  else if no = SYS_env_set_pgfault_upcall then .env_set_pgfault_upcall
  else if no = SYS_ipc_try_send then .ipc_try_send
  else if no = SYS_ipc_recv then .ipc_recv
  else .unknown_return0

/-! ## Kernel data model for the memory and IPC system calls

The environment table, the physical page allocator and the page-table
operations are kernel boundary services outside this slice; they are
modelled from the contracts in the specification.  A page directory is a
map from virtual page numbers (`va / PGSIZE`) to a physical page identity
together with the PTE permission bits. -/

/-- The page size, 4096 bytes. -/
def PGSIZE : Nat := 4096

/-- Top of the user address space.  Modelled from the spec:
`inc/memlayout.h` is not in the slice; every user-valid address is
strictly below this boundary. -/
def UTOP : Nat := 0xeec00000

/-- PTE present bit. -/
def PTE_P : Nat := 1

/-- PTE writable bit. -/
def PTE_W : Nat := 2

/-- PTE user bit. -/
def PTE_U : Nat := 4

/-- Error code `E_BAD_ENV`.  Modelled from the spec: `inc/error.h` is not
in the slice; the negative small integers follow the JOS numbering. -/
def E_BAD_ENV : Int := 2

/-- Error code `E_INVAL` (see `E_BAD_ENV`). -/
def E_INVAL : Int := 3

/-- Error code `E_NO_MEM` (see `E_BAD_ENV`). -/
def E_NO_MEM : Int := 4

/-- Error code `E_IPC_NOT_RECV` (see `E_BAD_ENV`). -/
def E_IPC_NOT_RECV : Int := 6

/-- Environment status `ENV_RUNNABLE`.  Modelled from the spec:
`inc/env.h` is not in the slice. -/
def ENV_RUNNABLE : Nat := 2

/-- Environment status `ENV_NOT_RUNNABLE` (see `ENV_RUNNABLE`). -/
def ENV_NOT_RUNNABLE : Nat := 4

/-- The per-bit requirement table `perm_bit` of `check_perm`
(`src/unnamed/part_000` lines 170-184): entry `i` governs permission bit
`i`; `1` means the bit must be set, `-1` means it must be clear, `0`
means it is optional. -/
def perm_bit : List Int := [1, 0, 1, -1, -1, -1, -1, -1, -1, 0, 0, 0]

/-- The checking loop of `check_perm`: walk the requirement table from bit
index `i`, returning `-E_INVAL` on the first violated requirement and `0`
if the whole table passes. -/
def check_perm_loop (perm : Nat) : Nat → List Int → Int
  | _, [] => 0
  | i, req :: rest =>
    if req = 1 then
      if perm.testBit i then check_perm_loop perm (i + 1) rest else -E_INVAL
    else if req = -1 then
      if perm.testBit i then -E_INVAL else check_perm_loop perm (i + 1) rest
    else
      check_perm_loop perm (i + 1) rest

/-- `check_perm` (`src/unnamed/part_000` lines 166-207): `0` if the
permission word satisfies the table, `-E_INVAL` otherwise. -/
def check_perm (perm : Nat) : Int := check_perm_loop perm 0 perm_bit

/-- A page directory: virtual page number to (physical page identity, PTE
permission bits). -/
def Pgdir : Type := Nat → Option (Nat × Nat)

/-- One environment (`struct Env`), restricted to the fields this slice
reads or writes.  `env_tf_eax` is the saved `eax` register of the trap
frame (the register holding a system call's return value). -/
structure JEnv where
  env_id : Nat
  env_parent_id : Nat
  env_status : Nat
  env_ipc_recving : Bool
  env_ipc_dstva : Nat
  env_ipc_value : Nat
  env_ipc_from : Nat
  env_ipc_perm : Nat
  env_tf_eax : Nat
  env_pgdir : Pgdir
  env_pgfault_upcall : Nat

/-- Kernel state as seen by the system calls: the environment table
(keyed by environment identity), the identity of the current environment,
and the identity the physical page allocator hands out next. -/
structure KState where
  envs : Nat → Option JEnv
  cur : Nat
  freePage : Nat

/-- Store environment `e` in the table slot `id`. -/
def setEnv (st : KState) (id : Nat) (e : JEnv) : KState :=
  { st with envs := fun i => if i = id then some e else st.envs i }

/-- Modelled from the spec: `envid2env` (kern/env.c) is a boundary
service.  Environment id `0` designates the current environment;
otherwise the id is looked up in the table, failing with `-E_BAD_ENV`
for a nonexistent environment; with `checkperm` set the target must be
the caller itself or an immediate child of the caller. -/
def envid2env (st : KState) (envid : Nat) (checkperm : Bool) : Except Int JEnv :=
  if envid = 0 then
    match st.envs st.cur with
    | none => .error (-E_BAD_ENV)
    | some e => .ok e
  else
    match st.envs envid with
    | none => .error (-E_BAD_ENV)
    | some e =>
      if checkperm = true ∧ e.env_id ≠ st.cur ∧ e.env_parent_id ≠ st.cur then
        .error (-E_BAD_ENV)
      else .ok e

/-- Modelled from the spec: `page_lookup` (kern/pmap.c) is a boundary
service returning the physical page mapped at `va` and its PTE; page
tables are indexed by virtual page number, so the low 12 bits of `va`
are ignored. -/
def page_lookup (pgdir : Pgdir) (va : Nat) : Option (Nat × Nat) :=
  pgdir (va / PGSIZE)

/-- Modelled from the spec: `page_insert` (kern/pmap.c) is a boundary
service mapping physical page `pp` at `va` with permission `perm`,
replacing any prior mapping at that address.  Its `-E_NO_MEM` failure
(page-table construction) is not modelled: insertion always succeeds. -/
def page_insert (pgdir : Pgdir) (pp : Nat) (va : Nat) (perm : Nat) : Pgdir :=
  fun pn => if pn = va / PGSIZE then some (pp, perm) else pgdir pn

/-- `sys_page_alloc` (`src/unnamed/part_000` lines 225-254).  The checks
appear in source order: `va >= UTOP`, then `check_perm`, then the
physical-page allocation (a boundary service, modelled as always
returning the fresh page `st.freePage`; its `-E_NO_MEM` failure is not
modelled), then `envid2env` with permission checking, then `page_insert`.
Note the source contains no page-alignment check on `va`, although its
own doc comment specifies `-E_INVAL if va >= UTOP, or va is not
page-aligned`. -/
def sys_page_alloc (st : KState) (envid : Nat) (va : Nat) (perm : Nat) :
    Option (Int × KState) :=
  if UTOP ≤ va then some (-E_INVAL, st)
  else if check_perm perm < 0 then some (-E_INVAL, st)
  else
    let newPage := st.freePage
    match envid2env st envid true with
    | .error e => some (e, st)
    | .ok e =>
      let e' := { e with env_pgdir := page_insert e.env_pgdir newPage va perm }
      some (0, setEnv { st with freePage := st.freePage + 1 } e.env_id e')

/-- The page-transfer block of `sys_ipc_try_send`
(`src/unnamed/part_000` lines 406-437): runs only when both `srcva` and
the receiver's registered `env_ipc_dstva` are below `UTOP`; validates
alignment, the permission word, the sender's mapping and its
writability; and performs the mapping only under the additional guard
`if (target_e->env_ipc_dstva)`, i.e. only when the registered receive
address is nonzero.  Yields the receiver's resulting page directory, or
the error the send returns. -/
def ipcPageStep (cu te : JEnv) (srcva perm : Nat) : Except Int Pgdir :=
  if srcva < UTOP ∧ te.env_ipc_dstva < UTOP then
    if ¬ srcva % PGSIZE = 0 then .error (-E_INVAL)
    else if check_perm perm < 0 then .error (-E_INVAL)
    else
      match page_lookup cu.env_pgdir srcva with
      | none => .error (-E_INVAL)
      | some (pg, pte) =>
        if perm.testBit 1 ∧ ¬ pte.testBit 1 then .error (-E_INVAL)
        else if te.env_ipc_dstva ≠ 0 then
          .ok (page_insert te.env_pgdir pg te.env_ipc_dstva perm)
        else .ok te.env_pgdir
  else .ok te.env_pgdir

/-- `sys_ipc_try_send` (`src/unnamed/part_000` lines 390-448).  Returns
`none` only when the current environment is missing from the table
(`curenv` invalid, impossible in a running kernel).  On success the
receiver's IPC fields are filled in, its saved `eax` is forced to 0, it
becomes runnable, and its page directory is the outcome of
`ipcPageStep`. -/
def sys_ipc_try_send (st : KState) (envid : Nat) (value : Nat) (srcva : Nat)
    (perm : Nat) : Option (Int × KState) :=
  match st.envs st.cur with
  | none => none
  | some cu =>
    match envid2env st envid false with
    | .error _ => some (-E_BAD_ENV, st)
    | .ok te =>
      if te.env_ipc_recving = false then some (-E_IPC_NOT_RECV, st)
      else
        match ipcPageStep cu te srcva perm with
        | .error e => some (e, st)
        | .ok pgdir' =>
          let te' := { te with
            env_ipc_value := value
            env_ipc_from := cu.env_id
            env_ipc_recving := false
            env_status := ENV_RUNNABLE
            env_tf_eax := 0
            env_ipc_perm := perm
            env_pgdir := pgdir' }
          some (0, setEnv st te.env_id te')

/-! ## On-disk file system (`src/xV6/fs.c`)

The disk is a flat store `data : Nat → Nat → Nat` from block number and
index to stored value.  Data blocks are byte-indexed (indices `0..BSIZE`);
indirect blocks are word-indexed (indices `0..NINDIRECT`), mirroring the
C code's `(uint*)bp->data` reinterpretation — any given block is used in
only one of the two roles along any execution considered here.  The
buffer cache (`bread`/`log_write`/`brelse`) is a boundary service; reads
and writes act directly on the flat store, and every path releases each
buffer exactly once, so no staleness is observable.

The superblock (re-read from block 1 by `readsb` whenever needed, and
never written by this module) is carried as the fields `sbSize` and
`sbNinodes`.  The inode region (blocks `IBLOCK(inum)`, accessed byte-packed
in C) is modelled as a separate logical store `inodes : Nat → Dinode`,
combining the disk copy and the in-memory cache entry: `iget` hands out
the inode number itself as the handle, reference counting and the
busy/valid flags (pure synchronization bookkeeping, per the concurrency
model) are elided, and `iupdate` stores the record back.  Functions that
can `panic` return `Option` with `none` for the panic path. -/

/-- Block size in bytes (`BSIZE`, fs.h; the source comments fix 512:
`BPB = 512 * 8`). -/
def BSIZE : Nat := 512

/-- Number of direct address slots (`NDIRECT`; the bmap comment fixes the
direct range as `bn in [0,11)`). -/
def NDIRECT : Nat := 11

/-- Entries per indirect block (`NINDIRECT = BSIZE / sizeof(uint)`; the
bmap comment fixes the single-indirect range as `[11, 139)`). -/
def NINDIRECT : Nat := 128

/-- Entries reachable through the double-indirect tree
(`NDINDIRECT = NINDIRECT * NINDIRECT`; the bmap comment fixes the range
`[139, 16523)`). -/
def NDINDIRECT : Nat := NINDIRECT * NINDIRECT

/-- Maximum file size in blocks (`MAXFILE`). -/
def MAXFILE : Nat := NDIRECT + NINDIRECT + NDINDIRECT

/-- Index of the single-indirect slot in `addrs`
(`SINGLE_LINKED_INDIRECT_TABLE = NDIRECT`). -/
def SINGLE_LINKED_INDIRECT_TABLE : Nat := NDIRECT

/-- Index of the double-indirect slot in `addrs`
(`DOUBLE_LINKED_INDIRECT_TABLE = NDIRECT + 1`). -/
def DOUBLE_LINKED_INDIRECT_TABLE : Nat := NDIRECT + 1

/-- Bitmap bits per bitmap block (`BPB = BSIZE * 8`). -/
def BPB : Nat := 4096

/-- Inodes per block (`IPB = BSIZE / sizeof(struct dinode)`); modelled
from the spec's on-disk layout (64-byte dinode). -/
def IPB : Nat := 8

/-- Maximum directory-entry name length (`DIRSIZ`). -/
def DIRSIZ : Nat := 14

/-- `sizeof(struct dirent)`: a 2-byte inode number plus `DIRSIZ` name
bytes. -/
def direntSize : Nat := 16

/-- Inode type tag: directory. -/
def T_DIR : Nat := 1

/-- Inode type tag: ordinary file. -/
def T_FILE : Nat := 2

/-- Inode type tag: device-special file. -/
def T_DEV : Nat := 3

/-- Size of the device-switch table (`NDEV`, param.h; modelled from the
spec). -/
def NDEV : Int := 10

/-- Inode number of the root directory (`ROOTINO`). -/
def ROOTINO : Nat := 1

/-- `2^32`, the modulus of the C `uint` arithmetic. -/
def U32 : Nat := 2 ^ 32

/-- `BBLOCK(b, ninodes) = b/BPB + ninodes/IPB + 3`: the bitmap block
holding the bit of block `b` (fs.h; modelled from the spec's layout:
boot block, superblock, inode region, then the bitmap region). -/
def BBLOCK (b ninodes : Nat) : Nat := b / BPB + ninodes / IPB + 3

/-- In-memory inode (`struct inode`), restricted to the content fields
(device number elided: a single block device is modelled; reference
count and flags are synchronization bookkeeping, elided). -/
structure Dinode where
  inum : Nat
  type : Nat
  major : Int
  minor : Int
  nlink : Nat
  size : Nat
  addrs : Nat → Nat

/-- File-system state: the flat block store, the logical inode store,
and the superblock geometry fields. -/
structure FsState where
  data : Nat → Nat → Nat
  inodes : Nat → Dinode
  sbSize : Nat
  sbNinodes : Nat

/-- Store value `v` at index `i` of block `b` (a buffered write that is
`log_write`-ed and released). -/
def fsWrite (fs : FsState) (b i v : Nat) : FsState :=
  { fs with data := fun b' i' => if b' = b ∧ i' = i then v else fs.data b' i' }

/-- `bzero` (fs.c lines 38-47): zero all `BSIZE` bytes of block `b`. -/
def bzeroBlock (fs : FsState) (b : Nat) : FsState :=
  { fs with data := fun b' i => if b' = b ∧ i < BSIZE then 0 else fs.data b' i }

/-- The `memmove(bp->data + dstOff, src, m)` step of `writei`: write the
`m` bytes `src srcOff, src (srcOff+1), ...` at byte offsets
`dstOff, dstOff+1, ...` of block `b`. -/
def blockWriteRange (fs : FsState) (b dstOff : Nat) (src : Nat → Nat)
    (srcOff m : Nat) : FsState :=
  { fs with data := fun b' i =>
      if b' = b ∧ dstOff ≤ i ∧ i < dstOff + m then src (srcOff + (i - dstOff))
      else fs.data b' i }

/-- The bitmap bit of block `b`: bit `(b % BPB) % 8` of byte
`(b % BPB) / 8` of bitmap block `BBLOCK b`. -/
def bitGet (fs : FsState) (b : Nat) : Bool :=
  (fs.data (BBLOCK b fs.sbNinodes) (b % BPB / 8)).testBit (b % BPB % 8)

/-- `bp->data[bi/8] |= m` of `balloc`: set the bitmap bit of block `b`. -/
def ballocMark (fs : FsState) (b : Nat) : FsState :=
  fsWrite fs (BBLOCK b fs.sbNinodes) (b % BPB / 8)
    (fs.data (BBLOCK b fs.sbNinodes) (b % BPB / 8) ||| 1 <<< (b % BPB % 8))

/-- Update one slot of an inode's block-address array. -/
def setAddr (ip : Dinode) (slot a : Nat) : Dinode :=
  { ip with addrs := fun j => if j = slot then a else ip.addrs j }

/-- Store inode record `d` in the logical inode store at number `inum`. -/
def iset (fs : FsState) (inum : Nat) (d : Dinode) : FsState :=
  { fs with inodes := fun i => if i = inum then d else fs.inodes i }

/-- `iupdate` (fs.c lines 217-238): write the in-memory inode record
back over the on-disk record. -/
def iupdate (fs : FsState) (ip : Dinode) : FsState := iset fs ip.inum ip

/-- Inner scan of `balloc` (fs.c lines 69-79): from bit index `bi` of the
bitmap block covering the stride starting at block `b`, the first bit
index whose bit is clear (and whose block is within the volume). -/
def ballocScan (fs : FsState) (b bi : Nat) : Option Nat :=
  if bi < BPB ∧ b + bi < fs.sbSize then
    if (fs.data (BBLOCK b fs.sbNinodes) (bi / 8)).testBit (bi % 8) = false then
      some bi
    else ballocScan fs b (bi + 1)
  else none
termination_by BPB - bi
decreasing_by
  omega

/-- Outer scan of `balloc` (fs.c line 65): strides of `BPB` blocks. -/
def ballocOuter (fs : FsState) (b : Nat) : Option Nat :=
  if b < fs.sbSize then
    match ballocScan fs b 0 with
    | some bi => some (b + bi)
    | none => ballocOuter fs (b + BPB)
  else none
termination_by fs.sbSize - b
decreasing_by
  simp only [BPB]
  omega

/-- `balloc` (fs.c lines 54-84): allocate a zeroed disk block — find the
first clear bitmap bit, set it (`log_write`), zero the block (`bzero`),
and return its number.  `none` is the panic `balloc: out of blocks`. -/
def balloc (fs : FsState) : Option (Nat × FsState) :=
  match ballocOuter fs 0 with
  | none => none
  | some b => some (b, bzeroBlock (ballocMark fs b) b)

/-- The slot stage shared by the three tiers of `bmap`: the address in
`ip.addrs slot`, lazily allocated when the slot is zero. -/
def bmapSlot (fs : FsState) (ip : Dinode) (slot : Nat) :
    Option (Nat × FsState × Dinode) :=
  if ip.addrs slot = 0 then
    match balloc fs with
    | none => none
    | some (t, fs1) => some (t, fs1, setAddr ip slot t)
  else some (ip.addrs slot, fs, ip)

/-- The table-entry stage shared by the indirect tiers of `bmap`: entry
`idx` of table block `blk`, lazily allocated (and the table block
`log_write`-en) when zero. -/
def bmapEntry (fs : FsState) (blk idx : Nat) : Option (Nat × FsState) :=
  if fs.data blk idx = 0 then
    match balloc fs with
    | none => none
    | some (a, fs1) => some (a, fsWrite fs1 blk idx a)
  else some (fs.data blk idx, fs)

/-- `bmap` (fs.c lines 385-455): the disk block address of file block
`bn` of inode `ip`, lazily allocating at each missing level.  Direct tier
for `bn < NDIRECT`; single-indirect tier for the next `NINDIRECT`
indices; double-indirect tier (first-level index `bn / NINDIRECT`,
second-level index `bn % NINDIRECT` after rebasing) for the next
`NDINDIRECT`.  `none` is a panic: allocation exhaustion inside, or
`bmap: out of range` past all three tiers. -/
def bmap (fs : FsState) (ip : Dinode) (bn : Nat) :
    Option (Nat × FsState × Dinode) :=
  if bn < NDIRECT then bmapSlot fs ip bn
  else
    let bn1 := bn - NDIRECT
    if bn1 < NINDIRECT then
      match bmapSlot fs ip SINGLE_LINKED_INDIRECT_TABLE with
      | none => none
      | some (t, fs1, ip1) =>
        match bmapEntry fs1 t bn1 with
        | none => none
        | some (a, fs2) => some (a, fs2, ip1)
    else
      let bn2 := bn1 - NINDIRECT
      if bn2 < NDINDIRECT then
        match bmapSlot fs ip DOUBLE_LINKED_INDIRECT_TABLE with
        | none => none
        | some (d, fs1, ip1) =>
          match bmapEntry fs1 d (bn2 / NINDIRECT) with
          | none => none
          | some (l1, fs2) =>
            match bmapEntry fs2 l1 (bn2 % NINDIRECT) with
            | none => none
            | some (a, fs3) => some (a, fs3, ip1)
      else none

/-- The pure reading of the block-address chain for file block `bn`: the
address `bmap` would return without allocating, `0` when any link of the
chain is missing.  (A specification ghost, not a source function.) -/
def fileAddr (fs : FsState) (ip : Dinode) (bn : Nat) : Nat :=
  if bn < NDIRECT then ip.addrs bn
  else if bn < NDIRECT + NINDIRECT then
    if ip.addrs SINGLE_LINKED_INDIRECT_TABLE = 0 then 0
    else fs.data (ip.addrs SINGLE_LINKED_INDIRECT_TABLE) (bn - NDIRECT)
  else if bn < MAXFILE then
    if ip.addrs DOUBLE_LINKED_INDIRECT_TABLE = 0 then 0
    else if fs.data (ip.addrs DOUBLE_LINKED_INDIRECT_TABLE)
        ((bn - NDIRECT - NINDIRECT) / NINDIRECT) = 0 then 0
    else fs.data (fs.data (ip.addrs DOUBLE_LINKED_INDIRECT_TABLE)
        ((bn - NDIRECT - NINDIRECT) / NINDIRECT))
      ((bn - NDIRECT - NINDIRECT) % NINDIRECT)
  else 0

/-- The structural roles a block can play for one inode: direct data
slot, the single-indirect table, an entry of it, the double-indirect
root, a first-level entry of it, or a leaf entry.  (A specification
ghost used to state the separation invariant.) -/
inductive Role where
  | direct (i : Nat)
  | single
  | sEntry (j : Nat)
  | double
  | dL1 (j : Nat)
  | dLeaf (j k : Nat)
deriving DecidableEq

/-- The block number playing role `r` for inode `ip` (0 when absent or
out of range). -/
def roleAddr (fs : FsState) (ip : Dinode) : Role → Nat
  | .direct i => if i < NDIRECT then ip.addrs i else 0
  | .single => ip.addrs SINGLE_LINKED_INDIRECT_TABLE
  | .sEntry j =>
    if j < NINDIRECT ∧ ip.addrs SINGLE_LINKED_INDIRECT_TABLE ≠ 0 then
      fs.data (ip.addrs SINGLE_LINKED_INDIRECT_TABLE) j
    else 0
  | .double => ip.addrs DOUBLE_LINKED_INDIRECT_TABLE
  | .dL1 j =>
    if j < NINDIRECT ∧ ip.addrs DOUBLE_LINKED_INDIRECT_TABLE ≠ 0 then
      fs.data (ip.addrs DOUBLE_LINKED_INDIRECT_TABLE) j
    else 0
  | .dLeaf j k =>
    if j < NINDIRECT ∧ k < NINDIRECT ∧ ip.addrs DOUBLE_LINKED_INDIRECT_TABLE ≠ 0 ∧
        fs.data (ip.addrs DOUBLE_LINKED_INDIRECT_TABLE) j ≠ 0 then
      fs.data (fs.data (ip.addrs DOUBLE_LINKED_INDIRECT_TABLE) j) k
    else 0

/-- First data-region block: one past the last bitmap block.  Blocks
below it are the boot block, the superblock, the inode region and the
bitmap region. -/
def dataStart (fs : FsState) : Nat := BBLOCK (fs.sbSize - 1) fs.sbNinodes + 1

/-- Consistency of one inode with the volume: the metadata region is
marked allocated in the bitmap; every block referenced by the inode lies
in the data region, inside the volume, and is marked allocated; and
distinct roles reference distinct blocks. -/
structure Inv (fs : FsState) (ip : Dinode) : Prop where
  sbPos : 0 < fs.sbSize
  geom : dataStart fs ≤ fs.sbSize
  meta : ∀ b, b < dataStart fs → bitGet fs b = true
  refGood : ∀ r, roleAddr fs ip r ≠ 0 →
    dataStart fs ≤ roleAddr fs ip r ∧ roleAddr fs ip r < fs.sbSize ∧
    bitGet fs (roleAddr fs ip r) = true
  inj : ∀ r1 r2, roleAddr fs ip r1 ≠ 0 → roleAddr fs ip r2 ≠ 0 →
    roleAddr fs ip r1 = roleAddr fs ip r2 → r1 = r2

/-- The read loop of `readi` (fs.c lines 555-568): accumulate the bytes
of `[off, off + (n - tot))` into `acc`, one block at a time.  The
arithmetic is plain: all quantities stay below `2^32` once the entry
checks of `readi` have passed. -/
def readiLoop (fs : FsState) (ip : Dinode) (off tot n : Nat) (acc : List Nat) :
    Option (List Nat × FsState × Dinode) :=
  if tot < n then
    match bmap fs ip (off / BSIZE) with
    | none => none
    | some (addr, fs1, ip1) =>
      let m := min (n - tot) (BSIZE - off % BSIZE)
      let bytes := (List.range m).map (fun i => fs1.data addr (off % BSIZE + i))
      readiLoop fs1 ip1 (off + m) (tot + m) n (acc ++ bytes)
  else some (acc, fs, ip)
termination_by n - tot
decreasing_by
  have hb : off % BSIZE < BSIZE := Nat.mod_lt off (by decide)
  have h1 : 0 < min (n - tot) (BSIZE - off % BSIZE) := by
    apply lt_min <;> omega
  have h2 : min (n - tot) (BSIZE - off % BSIZE) ≤ n - tot := min_le_left _ _
  omega

/-- `readi` (fs.c lines 533-570): read `n` bytes at byte offset `off`.
For a device inode the device switch is consulted — the table contents
are outside this slice (modelled from the spec as having no registered
hooks), so device reads fail with -1.  For an ordinary inode, fail when
the offset is past the size or `off + n` wraps in `uint` arithmetic;
clamp to the remaining bytes; then read block by block.  Returns the
(possibly clamped) count, the bytes read, and the updated state (the
`bmap` calls can lazily allocate). -/
def readi (fs : FsState) (ip : Dinode) (off n : Nat) :
    Option (Int × List Nat × FsState × Dinode) :=
  if ip.type = T_DEV then some (-1, [], fs, ip)
  else if off > ip.size ∨ (off + n) % U32 < off then some (-1, [], fs, ip)
  else
    let n' := if (off + n) % U32 > ip.size then ip.size - off else n
    match readiLoop fs ip off 0 n' [] with
    | none => none
    | some (bytes, fs1, ip1) => some ((n' : Int), bytes, fs1, ip1)

/-- The write loop of `writei` (fs.c lines 591-602): write the bytes
`src tot, src (tot+1), ...` at offsets `off, off+1, ...` until `tot`
reaches `n`, one block at a time (each block `log_write`-en). -/
def writeiLoop (fs : FsState) (ip : Dinode) (src : Nat → Nat) (off tot n : Nat) :
    Option (FsState × Dinode) :=
  if tot < n then
    match bmap fs ip (off / BSIZE) with
    | none => none
    | some (addr, fs1, ip1) =>
      let m := min (n - tot) (BSIZE - off % BSIZE)
      let fs2 := blockWriteRange fs1 addr (off % BSIZE) src tot m
      writeiLoop fs2 ip1 src (off + m) (tot + m) n
  else some (fs, ip)
termination_by n - tot
decreasing_by
  have hb : off % BSIZE < BSIZE := Nat.mod_lt off (by decide)
  have h1 : 0 < min (n - tot) (BSIZE - off % BSIZE) := by
    apply lt_min <;> omega
  have h2 : min (n - tot) (BSIZE - off % BSIZE) ≤ n - tot := min_le_left _ _
  omega

/-- `writei` (fs.c lines 574-610): write `n` bytes at byte offset `off`.
Device dispatch mirrors `readi` (no hooks registered in this slice).
For an ordinary inode: fail with -1 when the offset is past the size,
when `off + n` wraps in `uint` arithmetic, or when the end would exceed
`MAXFILE * BSIZE`; otherwise write block by block, and if the final
offset exceeds the inode's size (with `n > 0`), update the size and
write the inode back (`iupdate`).  Returns `n` and the updated state;
`none` is a panic inside `bmap`/`balloc`. -/
def writei (fs : FsState) (ip : Dinode) (src : Nat → Nat) (off n : Nat) :
    Option (Int × FsState × Dinode) :=
  if ip.type = T_DEV then some (-1, fs, ip)
  else if off > ip.size ∨ (off + n) % U32 < off then some (-1, fs, ip)
  else if (off + n) % U32 > MAXFILE * BSIZE then some (-1, fs, ip)
  else
    match writeiLoop fs ip src off 0 n with
    | none => none
    | some (fs1, ip1) =>
      if 0 < n ∧ ip1.size < off + n then
        let ip2 := { ip1 with size := off + n }
        some ((n : Int), iupdate fs1 ip2, ip2)
      else some ((n : Int), fs1, ip1)

/-! ### Directory layer -/

/-- The byte at index `j` of a C string embedded as a list (the
terminator and everything after it read as 0). -/
def cstrByte (s : List Nat) (j : Nat) : Nat :=
  if j < cstrlen s then s.getD j 0 else 0

/-- `strncmp` (string library): compare at most `n` bytes, stopping at a
difference or at the end of the first string. -/
def strncmp (s t : List Nat) : Nat → Int
  | 0 => 0
  | n + 1 =>
    if s.headD 0 ≠ t.headD 0 then (s.headD 0 : Int) - t.headD 0
    else if s.headD 0 = 0 then 0
    else strncmp s.tail t.tail n

/-- `namecmp` (fs.c lines 615-619): bounded name comparison up to
`DIRSIZ` bytes. -/
def namecmp (s t : List Nat) : Int := strncmp s t DIRSIZ

/-- The inode number of a directory entry: the 2-byte little-endian
field at the start of the 16 raw bytes. -/
def direntInum (bytes : List Nat) : Nat :=
  bytes.headD 0 + 256 * bytes.tail.headD 0

/-- The name field of a directory entry: the `DIRSIZ` bytes after the
inode number. -/
def direntName (bytes : List Nat) : List Nat := (bytes.drop 2).take DIRSIZ

/-- The scan of `dirlookup` (fs.c lines 638-651): read successive
16-byte entries; `none` is the panic on a short read; a zero inode
number marks an empty slot; on a name match return the entry's inode
number (the `iget` handle) and its byte offset. -/
def dirlookupLoop (fs : FsState) (dp : Dinode) (name : List Nat) (off : Nat) :
    Option (Option (Nat × Nat) × FsState × Dinode) :=
  if off < dp.size then
    match readi fs dp off direntSize with
    | none => none
    | some (r, bytes, fs1, dp1') =>
      let dp1 := { dp with addrs := dp1'.addrs }
      if r ≠ (direntSize : Int) then none
      else if direntInum bytes = 0 then dirlookupLoop fs1 dp1 name (off + direntSize)
      else if namecmp name (direntName bytes) = 0 then
        some (some (direntInum bytes, off), fs1, dp1)
      else dirlookupLoop fs1 dp1 name (off + direntSize)
  else some (none, fs, dp)
termination_by dp.size - off
decreasing_by
  all_goals
    simp only [direntSize]
    simp
    omega

/-- `dirlookup` (fs.c lines 629-652): look a name up in directory `dp`;
`none` is the panic `dirlookup not DIR` (or a short read inside the
scan). -/
def dirlookup (fs : FsState) (dp : Dinode) (name : List Nat) :
    Option (Option (Nat × Nat) × FsState × Dinode) :=
  if dp.type ≠ T_DIR then none
  else dirlookupLoop fs dp name 0

/-- The empty-slot scan of `dirlink` (fs.c lines 674-681): the byte
offset of the first entry with inode number 0, or `dp.size` when none is
free (appending past the end). -/
def dirlinkFindSlot (fs : FsState) (dp : Dinode) (off : Nat) :
    Option (Nat × FsState × Dinode) :=
  if off < dp.size then
    match readi fs dp off direntSize with
    | none => none
    | some (r, bytes, fs1, dp1') =>
      let dp1 := { dp with addrs := dp1'.addrs }
      if r ≠ (direntSize : Int) then none
      else if direntInum bytes = 0 then some (off, fs1, dp1)
      else dirlinkFindSlot fs1 dp1 (off + direntSize)
  else some (off, fs, dp)
termination_by dp.size - off
decreasing_by
  simp only [direntSize]
  simp
  omega

/-- The 16 bytes of the new directory entry `dirlink` writes:
`de.inum = inum` (little-endian 2-byte field, the C `ushort` truncates
to 16 bits) and `strncpy(de.name, name, DIRSIZ)` (name bytes, zero
padded). -/
def mkDirentBytes (name : List Nat) (inum : Nat) : Nat → Nat :=
  fun i =>
    if i = 0 then inum % 256
    else if i = 1 then inum % 2 ^ 16 / 256
    else if i < direntSize then cstrByte name (i - 2)
    else 0

/-- `dirlink` (fs.c lines 658-691): fail with -1 when the name is
already present (releasing the handle `dirlookup` produced — a no-op on
handles in this model); otherwise find a free slot (or append) and write
the new entry there; a short write is the panic `dirlink` (`none`). -/
def dirlink (fs : FsState) (dp : Dinode) (name : List Nat) (inum : Nat) :
    Option (Int × FsState × Dinode) :=
  match dirlookup fs dp name with
  | none => none
  | some (found, fs1, dp1) =>
    match found with
    | some _ => some (-1, fs1, dp1)
    | none =>
      match dirlinkFindSlot fs1 dp1 0 with
      | none => none
      | some (off, fs2, dp2) =>
        match writei fs2 dp2 (mkDirentBytes name inum) off direntSize with
        | none => none
        | some (r, fs3, dp3) =>
          if r ≠ (direntSize : Int) then none
          else some (0, fs3, dp3)

/-! ### Path resolution -/

/-- `while (*path == '/') path++`: drop leading slash bytes (byte 47).
A 0 byte inside the list is a C string terminator and stops the skip
like any non-slash byte. -/
def skipSlashes : List Nat → List Nat
  | [] => []
  | c :: cs => if c = 47 then skipSlashes cs else c :: cs

/-- `while (*path != '/' && *path != 0) path++`: the leading run of
element bytes. -/
def takeElem : List Nat → List Nat
  | [] => []
  | c :: cs => if c = 47 ∨ c = 0 then [] else c :: takeElem cs

/-- The rest of the path after the leading element run. -/
def dropElem : List Nat → List Nat
  | [] => []
  | c :: cs => if c = 47 ∨ c = 0 then c :: cs else dropElem cs

/-- `*path == 0`: the C string is exhausted (empty list or explicit
terminator byte). -/
def cAtEnd : List Nat → Bool
  | [] => true
  | c :: _ => c = 0

/-- `skipelem` (fs.c lines 712-742): skip leading slashes; if nothing
remains report `none`; otherwise return the remaining path (with its own
leading slashes skipped) and the element, truncated to `DIRSIZ` bytes
(the C code null-terminates only when shorter, which the list embedding
renders as plain truncation). -/
def skipelem (path : List Nat) : Option (List Nat × List Nat) :=
  if cAtEnd (skipSlashes path) then none
  else some (skipSlashes (dropElem (skipSlashes path)),
    (takeElem (skipSlashes path)).take DIRSIZ)

/-- `ilock` (fs.c lines 289-319) on a handle: the content fields of the
inode, read from the store; `none` is the panic `ilock: no type` (an
allocated-but-typeless inode).  The busy flag and the disk read-back are
synchronization mechanism, elided in the logical store. -/
def ilock (fs : FsState) (inum : Nat) : Option Dinode :=
  let d := fs.inodes inum
  if d.type = 0 then none else some d

/-- The walk of `namex` (fs.c lines 761-802).  One iteration: extract
the next element; lock the current inode and fail (absent) unless it is
a directory; when a parent lookup reaches the final element, return the
current inode; otherwise look the element up, fail (absent) when
missing, and advance.  After the loop a parent lookup reports absent
(`iput` on a handle is a no-op).  The in-place mutations `dirlookup`
makes to the locked directory's address array are written back to the
store, mirroring the shared in-memory cache entry. -/
def namexLoop (fs : FsState) (ip : Nat) (path name : List Nat) (wantParent : Bool) :
    Option (Option Nat × List Nat × FsState) :=
  match hs : skipelem path with
  | none =>
    if wantParent then some (none, name, fs) else some (some ip, name, fs)
  | some (rest, nm) =>
    match ilock fs ip with
    | none => none
    | some d =>
      if d.type ≠ T_DIR then some (none, nm, fs)
      else if wantParent ∧ cAtEnd rest then some (some ip, nm, fs)
      else
        match dirlookup fs d nm with
        | none => none
        | some (found, fs1, d1) =>
          let fs2 := iset fs1 ip d1
          match found with
          | none => some (none, nm, fs2)
          | some (next, _) => namexLoop fs2 next rest nm wantParent
termination_by path.length
decreasing_by
  have h1 : ∀ l : List Nat, (skipSlashes l).length ≤ l.length := by
    intro l
    induction l with
    | nil => simp [skipSlashes]
    | cons c cs ih =>
      simp only [skipSlashes]
      split
      · simp only [List.length_cons]
        omega
      · simp
  have h2 : ∀ l : List Nat, (dropElem l).length ≤ l.length := by
    intro l
    induction l with
    | nil => simp [dropElem]
    | cons c cs ih =>
      simp only [dropElem]
      split
      · simp
      · simpa using Nat.le_succ_of_le ih
  have h3 : ∀ l : List Nat, ∀ c cs, skipSlashes l = c :: cs → ¬ c = 47 := by
    intro l
    induction l with
    | nil => intro c cs h; cases h
    | cons a as ih =>
      intro c cs h
      simp only [skipSlashes] at h
      split at h
      · exact ih c cs h
      · rename_i ha
        cases h
        exact ha
  unfold skipelem at hs
  split at hs
  · cases hs
  · rename_i hend
    rcases hsp : skipSlashes path with _ | ⟨c, cs⟩
    · rw [hsp] at hend
      simp [cAtEnd] at hend
    · rw [hsp] at hs hend
      have hc0 : ¬ c = 0 := by simpa [cAtEnd] using hend
      have hc47 : ¬ c = 47 := h3 path c cs hsp
      have hpair := Option.some.inj hs
      have hrest : skipSlashes (dropElem (c :: cs)) = rest :=
        congrArg Prod.fst hpair
      have hd2 : dropElem (c :: cs) = dropElem cs := by
        simp [dropElem, hc47, hc0]
      have hlen1 : cs.length + 1 ≤ path.length := by
        have := h1 path
        rw [hsp] at this
        simpa using this
      have hlen2 : rest.length ≤ cs.length := by
        rw [← hrest, hd2]
        exact le_trans (h1 _) (h2 _)
      omega

/-- `namex` (fs.c lines 747-813): resolve `path` starting from the root
inode for an absolute path (leading byte `'/'`) or from a duplicated
handle to the current working directory otherwise, then walk. -/
def namex (fs : FsState) (cwd : Nat) (path : List Nat) (wantParent : Bool) :
    Option (Option Nat × List Nat × FsState) :=
  namexLoop fs (if path.headD 0 = 47 then ROOTINO else cwd) path [] wantParent

/-- `namei` (fs.c lines 817-822): resolve a path to its inode. -/
def namei (fs : FsState) (cwd : Nat) (path : List Nat) :
    Option (Option Nat × List Nat × FsState) :=
  namex fs cwd path false

/-- `nameiparent` (fs.c lines 826-830): resolve a path to its parent
directory's inode, leaving the final element in the name buffer. -/
def nameiparent (fs : FsState) (cwd : Nat) (path : List Nat) :
    Option (Option Nat × List Nat × FsState) :=
  namex fs cwd path true

/-! ### Specification ghosts and example states -/

/-- The 16 raw bytes of the directory entry stored at byte offset `off`
of directory `dp`, read through the pure address chain (a specification
ghost used to state directory-content hypotheses). -/
def entryBytesAt (fs : FsState) (dp : Dinode) (off : Nat) : List Nat :=
  (List.range direntSize).map
    (fun i => fs.data (fileAddr fs dp ((off + i) / BSIZE)) ((off + i) % BSIZE))

/-- The blocks newly marked allocated between two states (a
specification ghost used to count lazy allocations). -/
def freshBlocks (fs fs' : FsState) : Finset Nat :=
  (Finset.range fs.sbSize).filter
    (fun b => bitGet fs b = false ∧ bitGet fs' b = true)

/-- The role an `addrs` slot plays (ghost): slots below `NDIRECT` are
direct data slots, slot `NDIRECT` the single-indirect table, slot
`NDIRECT + 1` the double-indirect root. -/
def slotRole (slot : Nat) : Role :=
  if slot < NDIRECT then .direct slot
  else if slot = SINGLE_LINKED_INDIRECT_TABLE then .single
  else .double

/-- The role of entry `idx` of the table playing role `r` (ghost). -/
def childRole : Role → Nat → Role
  | .single, idx => .sEntry idx
  | .double, idx => .dL1 idx
  | .dL1 j, idx => .dLeaf j idx
  | r, _ => r

/-- The data role addressing file block `bn` (ghost): direct slot,
single-indirect entry, or double-indirect leaf. -/
def dataRole (bn : Nat) : Role :=
  if bn < NDIRECT then .direct bn
  else if bn < NDIRECT + NINDIRECT then .sEntry (bn - NDIRECT)
  else .dLeaf ((bn - NDIRECT - NINDIRECT) / NINDIRECT)
    ((bn - NDIRECT - NINDIRECT) % NINDIRECT)

/-- What one successful `bmap` call guarantees (ghost): the invariant is
maintained, the returned address is recorded for `bn` and nonzero, every
previously mapped file block keeps its address and its data bytes, the
inode's other fields and the volume geometry are untouched, no allocated
block is ever released, and at most `newMax` blocks are newly
allocated. -/
structure BmapPost (fs : FsState) (ip : Dinode) (bn : Nat) (newMax : Nat)
    (addr : Nat) (fs' : FsState) (ip' : Dinode) : Prop where
  inv : Inv fs' ip'
  addrEq : fileAddr fs' ip' bn = addr
  addrNz : addr ≠ 0
  mono : ∀ bn', fileAddr fs ip bn' ≠ 0 → fileAddr fs' ip' bn' = fileAddr fs ip bn'
  dataPres : ∀ bn', fileAddr fs ip bn' ≠ 0 →
    fs'.data (fileAddr fs ip bn') = fs.data (fileAddr fs ip bn')
  szEq : ip'.size = ip.size
  tyEq : ip'.type = ip.type
  inumEq : ip'.inum = ip.inum
  inodesEq : fs'.inodes = fs.inodes
  sbSzEq : fs'.sbSize = fs.sbSize
  sbNiEq : fs'.sbNinodes = fs.sbNinodes
  bitMono : ∀ x, x < fs.sbSize → bitGet fs x = true → bitGet fs' x = true
  newBound : (freshBlocks fs fs').card ≤ newMax

/-- Sender environment for the IPC examples: identity 1, one page mapped
at virtual page 1 (virtual address `0x1000`), physical page 42, PTE bits
`PTE_P + PTE_W + PTE_U`. -/
def ipcSender : JEnv where
  env_id := 1
  env_parent_id := 0
  env_status := 3
  env_ipc_recving := false
  env_ipc_dstva := 0
  env_ipc_value := 0
  env_ipc_from := 0
  env_ipc_perm := 0
  env_tf_eax := 0
  env_pgdir := fun pn => if pn = 1 then some (42, 7) else none
  env_pgfault_upcall := 0

/-- Receiver environment blocked in `ipc_recv` with registered receive
address 0 (below `UTOP`, page-aligned) and an empty address space. -/
def ipcReceiver : JEnv where
  env_id := 2
  env_parent_id := 0
  env_status := 4
  env_ipc_recving := true
  env_ipc_dstva := 0
  env_ipc_value := 0
  env_ipc_from := 0
  env_ipc_perm := 0
  env_tf_eax := 0
  env_pgdir := fun _ => none
  env_pgfault_upcall := 0

/-- Kernel state for the IPC examples: sender 1 is current, receiver 2 is
blocked receiving at address 0. -/
def ipcSt0 : KState where
  envs := fun i =>
    if i = 1 then some ipcSender else if i = 2 then some ipcReceiver else none
  cur := 1
  freePage := 100

/-- Receiver registered at the nonzero receive address `0x2000`. -/
def ipcReceiverB : JEnv := { ipcReceiver with env_ipc_dstva := 0x2000 }

/-- Kernel state with the receiver expecting a page at `0x2000`. -/
def ipcStB : KState where
  envs := fun i =>
    if i = 1 then some ipcSender else if i = 2 then some ipcReceiverB else none
  cur := 1
  freePage := 100

/-- The state after sender 1 sends value 99 with `srcva = UTOP` (no page
offered) and permission word 7 to receiver 2. -/
def ipcSt1 : KState :=
  setEnv ipcSt0 2 { ipcReceiver with
    env_ipc_value := 99
    env_ipc_from := 1
    env_ipc_recving := false
    env_status := ENV_RUNNABLE
    env_tf_eax := 0
    env_ipc_perm := 7 }

/-- Environment for the `sys_page_alloc` evaluation: identity 1, empty
address space. -/
def pgaEnv : JEnv where
  env_id := 1
  env_parent_id := 0
  env_status := 3
  env_ipc_recving := false
  env_ipc_dstva := 0
  env_ipc_value := 0
  env_ipc_from := 0
  env_ipc_perm := 0
  env_tf_eax := 0
  env_pgdir := fun _ => none
  env_pgfault_upcall := 0

/-- Kernel state for the `sys_page_alloc` evaluation: environment 1 is
current; the allocator hands out page 1000 next. -/
def pgaSt0 : KState where
  envs := fun i => if i = 1 then some pgaEnv else none
  cur := 1
  freePage := 1000

/-- A free inode record (type 0). -/
def exFree : Dinode where
  inum := 0
  type := 0
  major := 0
  minor := 0
  nlink := 0
  size := 0
  addrs := fun _ => 0

/-- An empty ordinary file, inode 2. -/
def exFile : Dinode where
  inum := 2
  type := T_FILE
  major := 0
  minor := 0
  nlink := 1
  size := 0
  addrs := fun _ => 0

/-- A one-entry directory, inode 3: 16 bytes of content in block 6. -/
def exDir : Dinode where
  inum := 3
  type := T_DIR
  major := 0
  minor := 0
  nlink := 1
  size := 16
  addrs := fun j => if j = 0 then 6 else 0

/-- A tiny example volume: 32 blocks, 8 inodes.  Bitmap block 4 marks
blocks 0-4 (boot, superblock, inode region, bitmap) allocated; the
inode store holds the empty file at 2. -/
def exFs : FsState where
  data := fun b i => if b = 4 ∧ i = 0 then 31 else 0
  inodes := fun i => if i = 2 then exFile else exFree
  sbSize := 32
  sbNinodes := 8

/-- `exFs` after `balloc` hands out block 5. -/
def exFsA : FsState := bzeroBlock (ballocMark exFs 5) 5

/-- `exFile` after `bmap` records block 5 in direct slot 0. -/
def exFileA : Dinode := setAddr exFile 0 5

/-- The tiny volume with the one-entry directory: additionally block 6
is allocated (bitmap byte 95) and holds one directory entry, inode
number 4, name `"x"`. -/
def exFsDir : FsState where
  data := fun b i =>
    if b = 4 ∧ i = 0 then 95
    else if b = 6 ∧ i = 0 then 4
    else if b = 6 ∧ i = 2 then 120
    else 0
  inodes := fun i => if i = 3 then exDir else if i = 2 then exFile else exFree
  sbSize := 32
  sbNinodes := 8

/-- An example source byte sequence for the write examples. -/
def exSrc : Nat → Nat := fun i => i % 251 + 1

/-- The tiny volume after the write loop puts the first source byte at
offset 0 of the freshly allocated block 5. -/
def exFsW : FsState := blockWriteRange exFsA 5 0 exSrc 0 1

/-- The empty file after the one-byte append: block 5 recorded, size 1. -/
def exFileW : Dinode := { exFileA with size := 1 }

/-- The volume after `writei` writes the updated inode back. -/
def exFsW2 : FsState := iupdate exFsW exFileW

/-- The copy loop of `strlcpy` copies `min (strlen src) budget` bytes. -/
theorem strlcpyLoop_length (src : List Nat) (budget : Nat) :
    (strlcpyLoop src budget).length = min (cstrlen src) budget := by
  induction src generalizing budget with
  | nil => cases budget <;> simp [strlcpyLoop, cstrlen]
  | cons c cs ih =>
    cases budget with
    | zero => simp [strlcpyLoop]
    | succ b =>
      by_cases hc : c = 0
      · simp [strlcpyLoop, cstrlen, hc]
      · simp [strlcpyLoop, cstrlen, hc, ih, Nat.succ_min_succ]

/-- Every error produced by the page-transfer block is `-E_INVAL`. -/
theorem ipcPageStep_error_eq (cu te : JEnv) (srcva perm : Nat) (e : Int)
    (h : ipcPageStep cu te srcva perm = .error e) : e = -E_INVAL := by
  unfold ipcPageStep at h
  split at h
  · split at h
    · exact (Except.error.inj h).symm
    · split at h
      · exact (Except.error.inj h).symm
      · split at h
        · exact (Except.error.inj h).symm
        · split at h
          · exact (Except.error.inj h).symm
          · split at h <;> simp at h
  · simp at h

/-- If the receiver registered a nonzero receive address below `UTOP` and
the sender offered a page, a successful page step performed the
mapping. -/
theorem ipcPageStep_ok_transfer (cu te : JEnv) (srcva perm : Nat) (pgdir' : Pgdir)
    (h : ipcPageStep cu te srcva perm = .ok pgdir')
    (hsrc : srcva < UTOP) (hdst : te.env_ipc_dstva < UTOP)
    (hnz : te.env_ipc_dstva ≠ 0) :
    ∃ pg pte, page_lookup cu.env_pgdir srcva = some (pg, pte) ∧
      pgdir' = page_insert te.env_pgdir pg te.env_ipc_dstva perm := by
  unfold ipcPageStep at h
  rw [if_pos ⟨hsrc, hdst⟩] at h
  split at h
  · simp at h
  · split at h
    · simp at h
    · split at h
      · simp at h
      · rename_i pg pte heq
        split at h
        all_goals first
          | exact ⟨pg, pte, heq, (Except.ok.inj h).symm⟩
          | exact absurd hnz (by assumption)
          | simp at h

/-- If the receiver did not ask for a page (registered address not below
`UTOP`), the page step does nothing. -/
theorem ipcPageStep_no_ask (cu te : JEnv) (srcva perm : Nat)
    (hdst : ¬ te.env_ipc_dstva < UTOP) :
    ipcPageStep cu te srcva perm = .ok te.env_pgdir := by
  unfold ipcPageStep
  rw [if_neg (fun hc => hdst hc.2)]

/-- Characterization of a successful `sys_ipc_try_send`: the receiver was
receiving, the page step succeeded, and the final state stores the
updated receiver. -/
theorem sys_ipc_try_send_success_eq (st : KState) (cu te : JEnv)
    (envid value srcva perm : Nat) (st' : KState)
    (hcu : st.envs st.cur = some cu)
    (hte : envid2env st envid false = .ok te)
    (hok : sys_ipc_try_send st envid value srcva perm = some (0, st')) :
    te.env_ipc_recving = true ∧
    ∃ pgdir', ipcPageStep cu te srcva perm = .ok pgdir' ∧
      st' = setEnv st te.env_id { te with
        env_ipc_value := value
        env_ipc_from := cu.env_id
        env_ipc_recving := false
        env_status := ENV_RUNNABLE
        env_tf_eax := 0
        env_ipc_perm := perm
        env_pgdir := pgdir' } := by
  unfold sys_ipc_try_send at hok
  simp only [hcu, hte] at hok
  by_cases hr : te.env_ipc_recving = false
  · rw [if_pos hr] at hok
    have h0 : (-E_IPC_NOT_RECV : Int) = 0 := congrArg Prod.fst (Option.some.inj hok)
    exact absurd h0 (by decide)
  · rw [if_neg hr] at hok
    refine ⟨by simpa using hr, ?_⟩
    cases hstep : ipcPageStep cu te srcva perm with
    | error e =>
      rw [hstep] at hok
      have hok2 : (some (e, st) : Option (Int × KState)) = some (0, st') := hok
      have he : e = 0 := congrArg Prod.fst (Option.some.inj hok2)
      have := ipcPageStep_error_eq cu te srcva perm e hstep
      rw [this] at he
      exact absurd he (by decide)
    | ok pgdir' =>
      rw [hstep] at hok
      have hok2 : (some ((0 : Int), setEnv st te.env_id { te with
          env_ipc_value := value
          env_ipc_from := cu.env_id
          env_ipc_recving := false
          env_status := ENV_RUNNABLE
          env_tf_eax := 0
          env_ipc_perm := perm
          env_pgdir := pgdir' }) : Option (Int × KState)) = some (0, st') := hok
      exact ⟨pgdir', rfl, (congrArg Prod.snd (Option.some.inj hok2)).symm⟩

/-- C1 (corrected): for a successful `ipc_try_send`, if the receiver's
registered receive address is below `UTOP` **and nonzero** and the sender
supplied a page (`srcva < UTOP`), then the sender's page is mapped into
the receiver at the registered address with the given permission; and
when the receiver did not ask for a page (registered address not below
`UTOP`), a send by a willing sender succeeds with no page transferred.
The claim's version without the nonzero proviso is refuted by
`ipc_try_send_dstva_zero_counterexample`. -/
theorem ipc_try_send_page_transfer (st : KState) (cu te : JEnv)
    (envid value srcva perm : Nat)
    (hcu : st.envs st.cur = some cu)
    (hte : envid2env st envid false = .ok te) :
    (∀ st', sys_ipc_try_send st envid value srcva perm = some (0, st') →
      srcva < UTOP → te.env_ipc_dstva < UTOP → te.env_ipc_dstva ≠ 0 →
      ∃ pg pte, page_lookup cu.env_pgdir srcva = some (pg, pte) ∧
        ∃ te', st'.envs te.env_id = some te' ∧
          te'.env_pgdir (te.env_ipc_dstva / PGSIZE) = some (pg, perm)) ∧
    (te.env_ipc_recving = true → srcva < UTOP → ¬ te.env_ipc_dstva < UTOP →
      ∃ st', sys_ipc_try_send st envid value srcva perm = some (0, st') ∧
        ∃ te', st'.envs te.env_id = some te' ∧ te'.env_pgdir = te.env_pgdir) := by
  constructor
  · intro st' hok hsrc hdst hdstnz
    obtain ⟨hrecv, pgdir', hstep, hst'⟩ :=
      sys_ipc_try_send_success_eq st cu te envid value srcva perm st' hcu hte hok
    obtain ⟨pg, pte, hpl, hpg⟩ :=
      ipcPageStep_ok_transfer cu te srcva perm pgdir' hstep hsrc hdst hdstnz
    refine ⟨pg, pte, hpl, ?_⟩
    refine ⟨{ te with
      env_ipc_value := value
      env_ipc_from := cu.env_id
      env_ipc_recving := false
      env_status := ENV_RUNNABLE
      env_tf_eax := 0
      env_ipc_perm := perm
      env_pgdir := pgdir' }, ?_, ?_⟩
    · rw [hst']; simp [setEnv]
    · simp [hpg, page_insert]
  · intro hrecv hsrc hdst
    have hstep := ipcPageStep_no_ask cu te srcva perm hdst
    refine ⟨setEnv st te.env_id { te with
      env_ipc_value := value
      env_ipc_from := cu.env_id
      env_ipc_recving := false
      env_status := ENV_RUNNABLE
      env_tf_eax := 0
      env_ipc_perm := perm
      env_pgdir := te.env_pgdir }, ?_, { te with
      env_ipc_value := value
      env_ipc_from := cu.env_id
      env_ipc_recving := false
      env_status := ENV_RUNNABLE
      env_tf_eax := 0
      env_ipc_perm := perm
      env_pgdir := te.env_pgdir }, ?_, rfl⟩
    · unfold sys_ipc_try_send
      simp only [hcu, hte, hstep]
      rw [if_neg (by simp [hrecv])]
    · simp [setEnv]

/-- C1 (counterexample to the claim as stated): receiver 2 registered
receive address 0, which is below `UTOP` and page-aligned, so by the
claim it "requested a page"; sender 1 supplies a valid page at `0x1000`
with a valid permission word; the send succeeds (returns 0), yet no page
is mapped at the receiver's requested address. -/
theorem ipc_try_send_dstva_zero_counterexample :
    (ipcReceiver.env_ipc_dstva < UTOP ∧ ipcReceiver.env_ipc_dstva % PGSIZE = 0) ∧
    ((0x1000 : Nat) % PGSIZE = 0 ∧ (0x1000 : Nat) < UTOP) ∧
    page_lookup ipcSender.env_pgdir 0x1000 = some (42, 7) ∧
    check_perm (PTE_P + PTE_U) = 0 ∧
    (sys_ipc_try_send ipcSt0 2 99 0x1000 (PTE_P + PTE_U)).map Prod.fst = some 0 ∧
    (sys_ipc_try_send ipcSt0 2 99 0x1000 (PTE_P + PTE_U)).map
      (fun r => (r.2.envs 2).map
        (fun e => e.env_pgdir (ipcReceiver.env_ipc_dstva / PGSIZE))) =
      some (some none) := by
  refine ⟨by decide, by decide, rfl, by decide, rfl, rfl⟩

/-- Witness for `ipc_try_send_page_transfer` at a concrete state, plus a
direct evaluation showing the page really is transferred there. -/
theorem ipc_try_send_page_transfer_witness :
    ((∀ st', sys_ipc_try_send ipcStB 2 99 0x1000 (PTE_P + PTE_U) = some (0, st') →
      (0x1000 : Nat) < UTOP → ipcReceiverB.env_ipc_dstva < UTOP →
      ipcReceiverB.env_ipc_dstva ≠ 0 →
      ∃ pg pte, page_lookup ipcSender.env_pgdir 0x1000 = some (pg, pte) ∧
        ∃ te', st'.envs ipcReceiverB.env_id = some te' ∧
          te'.env_pgdir (ipcReceiverB.env_ipc_dstva / PGSIZE) =
            some (pg, PTE_P + PTE_U)) ∧
    (ipcReceiverB.env_ipc_recving = true → (0x1000 : Nat) < UTOP →
      ¬ ipcReceiverB.env_ipc_dstva < UTOP →
      ∃ st', sys_ipc_try_send ipcStB 2 99 0x1000 (PTE_P + PTE_U) = some (0, st') ∧
        ∃ te', st'.envs ipcReceiverB.env_id = some te' ∧
          te'.env_pgdir = ipcReceiverB.env_pgdir)) ∧
    (sys_ipc_try_send ipcStB 2 99 0x1000 (PTE_P + PTE_U)).map
      (fun r => (r.2.envs 2).map (fun e => e.env_pgdir 2)) =
      some (some (some (42, PTE_P + PTE_U))) :=
  ⟨ipc_try_send_page_transfer ipcStB ipcSender ipcReceiverB 2 99 0x1000
    (PTE_P + PTE_U) rfl rfl, rfl⟩

/-- C10 (confirmed): every successful `ipc_try_send` stores the sender's
`perm` argument in the receiver's `env_ipc_perm` field, for all inputs,
including sends that transfer no page; it is not reset to 0. -/
theorem ipc_try_send_perm_always_set (st st' : KState) (te : JEnv)
    (envid value srcva perm : Nat)
    (hte : envid2env st envid false = .ok te)
    (hok : sys_ipc_try_send st envid value srcva perm = some (0, st')) :
    ∃ te', st'.envs te.env_id = some te' ∧ te'.env_ipc_perm = perm := by
  rcases hcu : st.envs st.cur with _ | cu
  · unfold sys_ipc_try_send at hok
    rw [hcu] at hok
    cases hok
  · obtain ⟨-, pgdir', -, hst'⟩ :=
      sys_ipc_try_send_success_eq st cu te envid value srcva perm st' hcu hte hok
    exact ⟨{ te with
      env_ipc_value := value
      env_ipc_from := cu.env_id
      env_ipc_recving := false
      env_status := ENV_RUNNABLE
      env_tf_eax := 0
      env_ipc_perm := perm
      env_pgdir := pgdir' }, by rw [hst']; simp [setEnv], rfl⟩

/-- Witness for `ipc_try_send_perm_always_set`: a send that transfers no
page (source address is `UTOP`) still records permission word 7. -/
theorem ipc_try_send_perm_always_set_witness :
    sys_ipc_try_send ipcSt0 2 99 UTOP 7 = some (0, ipcSt1) ∧
    ∃ te', ipcSt1.envs 2 = some te' ∧ te'.env_ipc_perm = 7 :=
  ⟨rfl, ipc_try_send_perm_always_set ipcSt0 ipcSt1 ipcReceiver 2 99 UTOP 7 rfl rfl⟩

/-- C2 (corrected): the dispatcher does **not** route the
`env_set_trapframe` call number to the `sys_env_set_trapframe` stub; the
switch in `syscall` has no case for it, so that number is treated as
unrecognized and the call silently returns 0. -/
theorem syscall_env_set_trapframe_unrouted :
    syscallTarget SYS_env_set_trapframe = KernelCall.unknown_return0 := by decide

/-- C2 (counterexample to the claim as stated): call number 9
(`SYS_env_set_trapframe`) is not dispatched to the `env_set_trapframe`
kernel operation; it falls out of the switch to the silent `return 0`. -/
theorem syscall_env_set_trapframe_claim_counterexample :
    syscallTarget 9 ≠ KernelCall.env_set_trapframe ∧
    syscallTarget 9 = KernelCall.unknown_return0 := by decide

/-- C3 (code bug): `sys_page_alloc` with a virtual address that is below
`UTOP` but not page-aligned does not return `-E_INVAL` (contradicting
the claim and the function's own doc comment); it proceeds and maps a
page: here the call with `va = 0x1004` succeeds with return value 0 and
maps the fresh page 1000 at virtual page 1. -/
theorem page_alloc_unaligned_accepted :
    (0x1004 : Nat) < UTOP ∧ (0x1004 : Nat) % PGSIZE ≠ 0 ∧
    (sys_page_alloc pgaSt0 1 0x1004 (PTE_P + PTE_U)).map Prod.fst = some 0 ∧
    (sys_page_alloc pgaSt0 1 0x1004 (PTE_P + PTE_U)).map
      (fun r => (r.2.envs 1).map (fun e => e.env_pgdir (0x1004 / PGSIZE))) =
      some (some (some (1000, PTE_P + PTE_U))) := by
  refine ⟨by decide, by decide, rfl, rfl⟩

/-- C9 (counterexample to the claim as stated): `strlcpy(dst, "hello", 3)`
yields `dst = "he"` but returns 2 (the number of bytes copied), not 5
(the source length): the library's `strlcpy` returns `dst - dst_in`. -/
theorem strlcpy_hello3_counterexample :
    strlcpy [104, 101, 108, 108, 111] 3 = ([104, 101, 0], 2) ∧
    (strlcpy [104, 101, 108, 108, 111] 3).2 ≠ 5 := by decide

/-- C9 (corrected): with a positive capacity, `strlcpy` copies at most
`size - 1` bytes of the source, always stores a terminator within the
capacity (the written bytes number at most `size` and end in 0), and
returns the number of bytes copied, `min (strlen src) (size - 1)` — not
the source length. -/
theorem strlcpy_bounded_spec (src : List Nat) (size : Nat) (h : 0 < size) :
    (strlcpy src size).1 = strlcpyLoop src (size - 1) ++ [0] ∧
    (strlcpy src size).2 = min (cstrlen src) (size - 1) ∧
    (strlcpy src size).1.length ≤ size ∧
    (strlcpy src size).1.getLast? = some 0 := by
  have hsz : size ≠ 0 := Nat.pos_iff_ne_zero.mp h
  unfold strlcpy
  rw [if_neg hsz]
  refine ⟨rfl, strlcpyLoop_length src (size - 1), ?_, List.getLast?_concat _⟩
  simp only [List.length_append, List.length_cons, List.length_nil,
    strlcpyLoop_length]
  omega

/-- Witness for `strlcpy_bounded_spec` at `src = "hello"`, `size = 3`. -/
theorem strlcpy_bounded_spec_witness :
    (0 : Nat) < 3 ∧
    ((strlcpy [104, 101, 108, 108, 111] 3).1 =
        strlcpyLoop [104, 101, 108, 108, 111] 2 ++ [0] ∧
      (strlcpy [104, 101, 108, 108, 111] 3).2 =
        min (cstrlen [104, 101, 108, 108, 111]) 2 ∧
      (strlcpy [104, 101, 108, 108, 111] 3).1.length ≤ 3 ∧
      (strlcpy [104, 101, 108, 108, 111] 3).1.getLast? = some 0) :=
  ⟨by decide, strlcpy_bounded_spec [104, 101, 108, 108, 111] 3 (by decide)⟩

/-! ### Block-allocator lemmas -/

/-- The data region starts past the fixed metadata blocks. -/
theorem dataStart_pos (fs : FsState) : 4 ≤ dataStart fs := by
  unfold dataStart BBLOCK BPB IPB
  omega

/-- Every bitmap block lies below the data region. -/
theorem BBLOCK_lt_dataStart (fs : FsState) (b : Nat) (hb : b < fs.sbSize) :
    BBLOCK b fs.sbNinodes < dataStart fs := by
  unfold dataStart BBLOCK BPB
  have : b / 4096 ≤ (fs.sbSize - 1) / 4096 := Nat.div_le_div_right (by omega)
  omega

/-- A write into a data-region block leaves every bitmap bit alone. -/
theorem bitGet_fsWrite_high (fs : FsState) (blk i v x : Nat)
    (hblk : dataStart fs ≤ blk) (hx : x < fs.sbSize) :
    bitGet (fsWrite fs blk i v) x = bitGet fs x := by
  have h := BBLOCK_lt_dataStart fs x hx
  simp only [bitGet, fsWrite]
  rw [if_neg (by intro hc; omega)]

/-- Zeroing a data-region block leaves every bitmap bit alone. -/
theorem bitGet_bzero_high (fs : FsState) (blk x : Nat)
    (hblk : dataStart fs ≤ blk) (hx : x < fs.sbSize) :
    bitGet (bzeroBlock fs blk) x = bitGet fs x := by
  have h := BBLOCK_lt_dataStart fs x hx
  simp only [bitGet, bzeroBlock]
  rw [if_neg (by intro hc; omega)]

/-- A ranged write into a data-region block leaves every bitmap bit
alone. -/
theorem bitGet_bwr_high (fs : FsState) (blk o : Nat) (src : Nat → Nat)
    (so m x : Nat) (hblk : dataStart fs ≤ blk) (hx : x < fs.sbSize) :
    bitGet (blockWriteRange fs blk o src so m) x = bitGet fs x := by
  have h := BBLOCK_lt_dataStart fs x hx
  simp only [bitGet, blockWriteRange]
  rw [if_neg (by intro hc; omega)]

/-- Marking block `b` sets its bitmap bit. -/
theorem bitGet_ballocMark_self (fs : FsState) (b : Nat) :
    bitGet (ballocMark fs b) b = true := by
  simp only [bitGet, ballocMark, fsWrite]
  split
  · rw [Nat.shiftLeft_eq, one_mul, Nat.testBit_or, Nat.testBit_two_pow_self]
    simp
  · rename_i hc
    simp at hc

/-- Marking block `b` leaves every other block's bitmap bit alone. -/
theorem bitGet_ballocMark_ne (fs : FsState) (b x : Nat) (h : x ≠ b) :
    bitGet (ballocMark fs b) x = bitGet fs x := by
  simp only [bitGet, ballocMark, fsWrite]
  by_cases hc : BBLOCK x fs.sbNinodes = BBLOCK b fs.sbNinodes ∧
      x % BPB / 8 = b % BPB / 8
  · rw [if_pos hc]
    have hbit : x % BPB % 8 ≠ b % BPB % 8 := by
      intro he
      apply h
      obtain ⟨hc1, hc2⟩ := hc
      unfold BBLOCK at hc1
      unfold BPB at hc1 hc2 he
      omega
    rw [hc.2, Nat.shiftLeft_eq, one_mul, Nat.testBit_or,
      Nat.testBit_two_pow_of_ne (Ne.symm hbit)]
    rw [hc.1]
    simp
  · rw [if_neg hc]

/-- A write frame on unrelated blocks. -/
theorem fsWrite_data_ne (fs : FsState) (blk i v b' : Nat) (h : b' ≠ blk) :
    (fsWrite fs blk i v).data b' = fs.data b' := by
  funext i'
  simp [fsWrite, h]

/-- A zeroing frame on unrelated blocks. -/
theorem bzeroBlock_data_ne (fs : FsState) (blk b' : Nat) (h : b' ≠ blk) :
    (bzeroBlock fs blk).data b' = fs.data b' := by
  funext i'
  simp [bzeroBlock, h]

/-- A ranged-write frame on unrelated blocks. -/
theorem blockWriteRange_data_ne (fs : FsState) (blk o : Nat) (src : Nat → Nat)
    (so m b' : Nat) (h : b' ≠ blk) :
    (blockWriteRange fs blk o src so m).data b' = fs.data b' := by
  funext i'
  simp [blockWriteRange, h]

/-- Soundness of the inner allocator scan: the returned bit index is in
range, its block is inside the volume, and its bit is clear. -/
theorem ballocScan_some (fs : FsState) (b : Nat) (fuel : Nat) :
    ∀ bi bi', BPB - bi ≤ fuel → ballocScan fs b bi = some bi' →
    bi ≤ bi' ∧ bi' < BPB ∧ b + bi' < fs.sbSize ∧
    (fs.data (BBLOCK b fs.sbNinodes) (bi' / 8)).testBit (bi' % 8) = false := by
  induction fuel with
  | zero =>
    intro bi bi' hf h
    rw [ballocScan.eq_def] at h
    rw [if_neg (by omega)] at h
    cases h
  | succ f ih =>
    intro bi bi' hf h
    rw [ballocScan.eq_def] at h
    split at h
    · rename_i hcond
      split at h
      · rename_i htb
        have hbb := Option.some.inj h
        subst hbb
        exact ⟨le_refl _, hcond.1, hcond.2, by simpa using htb⟩
      · obtain ⟨h1, h2, h3, h4⟩ := ih (bi + 1) bi' (by omega) h
        exact ⟨by omega, h2, h3, h4⟩
    · cases h

/-- Soundness of the outer allocator scan. -/
theorem ballocOuter_some (fs : FsState) : ∀ fuel b blk,
    fs.sbSize ≤ b + fuel * BPB → b % BPB = 0 →
    ballocOuter fs b = some blk →
    bitGet fs blk = false ∧ blk < fs.sbSize := by
  intro fuel
  induction fuel with
  | zero =>
    intro b blk hf hmod h
    rw [ballocOuter.eq_def] at h
    rw [if_neg (by omega)] at h
    cases h
  | succ f ih =>
    intro b blk hf hmod h
    rw [ballocOuter.eq_def] at h
    split at h
    · rename_i hb
      cases hscan : ballocScan fs b 0 with
      | some bi =>
        simp only [hscan] at h
        obtain ⟨-, hbi, hlt, htb⟩ := ballocScan_some fs b BPB 0 bi (by omega) hscan
        have hblk : b + bi = blk := Option.some.inj h
        subst hblk
        have h1 : (b + bi) % BPB = bi := by
          unfold BPB at hbi hmod ⊢
          omega
        have h2 : BBLOCK (b + bi) fs.sbNinodes = BBLOCK b fs.sbNinodes := by
          unfold BBLOCK
          unfold BPB at hbi hmod ⊢
          omega
        refine ⟨?_, hlt⟩
        unfold bitGet
        rw [h1, h2]
        exact htb
      | none =>
        simp only [hscan] at h
        refine ih (b + BPB) blk ?_ ?_ h
        · have : b + (f + 1) * BPB = b + BPB + f * BPB := by ring
          omega
        · unfold BPB at hmod ⊢
          omega
    · cases h

/-- What `balloc` returns: a block whose bit was clear, inside the
volume, with the state updated by marking the bit and zeroing the
block. -/
theorem balloc_sound (fs : FsState) (b : Nat) (fs' : FsState)
    (h : balloc fs = some (b, fs')) :
    bitGet fs b = false ∧ b < fs.sbSize ∧
    fs' = bzeroBlock (ballocMark fs b) b := by
  unfold balloc at h
  cases ho : ballocOuter fs 0 with
  | none => rw [ho] at h; cases h
  | some b0 =>
    simp only [ho] at h
    have hpair := Option.some.inj h
    have hb : b0 = b := congrArg Prod.fst hpair
    have hfs : bzeroBlock (ballocMark fs b0) b0 = fs' := congrArg Prod.snd hpair
    subst hb
    obtain ⟨h1, h2⟩ := ballocOuter_some fs (fs.sbSize / BPB + 1) 0 b0
      (by unfold BPB; omega) (by simp) ho
    exact ⟨h1, h2, hfs.symm⟩

/-- The allocator specification under the volume invariant: the new
block is fresh (in the data region, unreferenced, previously free), now
marked; everything else — other bits, other blocks' contents, the inode
store, the geometry — is untouched, and exactly the new block is newly
marked. -/
theorem balloc_spec (fs : FsState) (ip : Dinode) (b : Nat) (fs' : FsState)
    (hInv : Inv fs ip) (h : balloc fs = some (b, fs')) :
    dataStart fs ≤ b ∧ b < fs.sbSize ∧ bitGet fs b = false ∧
    (∀ r, roleAddr fs ip r ≠ b) ∧
    bitGet fs' b = true ∧
    (∀ x, x < fs.sbSize → x ≠ b → bitGet fs' x = bitGet fs x) ∧
    (∀ blk, blk ≠ b → blk ≠ BBLOCK b fs.sbNinodes → fs'.data blk = fs.data blk) ∧
    (∀ i, i < BSIZE → fs'.data b i = 0) ∧
    fs'.sbSize = fs.sbSize ∧ fs'.sbNinodes = fs.sbNinodes ∧
    fs'.inodes = fs.inodes ∧
    (freshBlocks fs fs').card ≤ 1 := by
  obtain ⟨hfree, hlt, hfs'⟩ := balloc_sound fs b fs' h
  subst hfs'
  have hds : dataStart fs ≤ b := by
    by_contra hc
    push_neg at hc
    rw [hInv.meta b hc] at hfree
    cases hfree
  have hrole : ∀ r, roleAddr fs ip r ≠ b := by
    intro r hr
    by_cases hz : roleAddr fs ip r = 0
    · rw [hz] at hr
      have := dataStart_pos fs
      omega
    · have := (hInv.refGood r hz).2.2
      rw [hr, hfree] at this
      cases this
  have hmarkds : dataStart (ballocMark fs b) = dataStart fs := rfl
  have hbitself : bitGet (bzeroBlock (ballocMark fs b) b) b = true := by
    rw [bitGet_bzero_high (ballocMark fs b) b b (by rw [hmarkds]; exact hds) hlt]
    exact bitGet_ballocMark_self fs b
  have hbitframe : ∀ x, x < fs.sbSize → x ≠ b →
      bitGet (bzeroBlock (ballocMark fs b) b) x = bitGet fs x := by
    intro x hx hxb
    rw [bitGet_bzero_high (ballocMark fs b) b x (by rw [hmarkds]; exact hds) hx]
    exact bitGet_ballocMark_ne fs b x hxb
  refine ⟨hds, hlt, hfree, hrole, hbitself, hbitframe, ?_, ?_, rfl, rfl, rfl, ?_⟩
  · intro blk hb1 hb2
    rw [bzeroBlock_data_ne _ _ _ hb1]
    exact fsWrite_data_ne _ _ _ _ _ hb2
  · intro i hi
    simp [bzeroBlock, hi]
  · have hsub : freshBlocks fs (bzeroBlock (ballocMark fs b) b) ⊆ {b} := by
      intro x hx
      simp only [freshBlocks, Finset.mem_filter, Finset.mem_range] at hx
      obtain ⟨hx1, hx2, hx3⟩ := hx
      simp only [Finset.mem_singleton]
      by_contra hxb
      rw [hbitframe x hx1 hxb, hx2] at hx3
      cases hx3
    calc (freshBlocks fs (bzeroBlock (ballocMark fs b) b)).card
        ≤ ({b} : Finset Nat).card := Finset.card_le_card hsub
      _ = 1 := Finset.card_singleton b

/-! ### Role and address-chain lemmas -/

/-- The pure chain read agrees with the role map at the data role. -/
theorem fileAddr_eq_roleAddr (fs : FsState) (ip : Dinode) (bn : Nat) :
    fileAddr fs ip bn = roleAddr fs ip (dataRole bn) := by
  unfold fileAddr dataRole
  by_cases h1 : bn < NDIRECT
  · simp only [if_pos h1]
    simp only [roleAddr]
    rw [if_pos h1]
  · by_cases h2 : bn < NDIRECT + NINDIRECT
    · simp only [if_neg h1, if_pos h2]
      simp only [roleAddr]
      by_cases hS : ip.addrs SINGLE_LINKED_INDIRECT_TABLE = 0
      · rw [if_pos hS, if_neg (by intro hc; exact hc.2 hS)]
      · rw [if_neg hS, if_pos ⟨by omega, hS⟩]
    · simp only [if_neg h1, if_neg h2]
      by_cases h3 : bn < MAXFILE
      · simp only [if_pos h3]
        simp only [roleAddr]
        by_cases hD : ip.addrs DOUBLE_LINKED_INDIRECT_TABLE = 0
        · rw [if_pos hD, if_neg (by intro hc; exact hc.2.2.1 hD)]
        · rw [if_neg hD]
          have hj : (bn - NDIRECT - NINDIRECT) / NINDIRECT < NINDIRECT := by
            have : bn - NDIRECT - NINDIRECT < NDINDIRECT := by
              unfold MAXFILE at h3
              omega
            unfold NDINDIRECT at this
            exact Nat.div_lt_of_lt_mul (by omega)
          have hk : (bn - NDIRECT - NINDIRECT) % NINDIRECT < NINDIRECT :=
            Nat.mod_lt _ (by unfold NINDIRECT; omega)
          by_cases hl1 : fs.data (ip.addrs DOUBLE_LINKED_INDIRECT_TABLE)
              ((bn - NDIRECT - NINDIRECT) / NINDIRECT) = 0
          · rw [if_pos hl1, if_neg (by intro hc; exact hc.2.2.2 hl1)]
          · rw [if_neg hl1, if_pos ⟨hj, hk, hD, hl1⟩]
      · simp only [if_neg h3]
        simp only [roleAddr]
        rw [if_neg (by
          intro hc
          have h4 := hc.1
          simp only [MAXFILE, NDIRECT, NINDIRECT, NDINDIRECT] at h3
          simp only [NDIRECT, NINDIRECT] at h4
          omega)]

/-- The data role is never the single-indirect table role. -/
theorem dataRole_ne_single (bn : Nat) : dataRole bn ≠ .single := by
  unfold dataRole
  split
  · simp
  · split <;> simp

/-- The data role is never the double-indirect root role. -/
theorem dataRole_ne_double (bn : Nat) : dataRole bn ≠ .double := by
  unfold dataRole
  split
  · simp
  · split <;> simp

/-- The data role is never a first-level double-indirect role. -/
theorem dataRole_ne_dL1 (bn j : Nat) : dataRole bn ≠ .dL1 j := by
  unfold dataRole
  split
  · simp
  · split <;> simp

/-- Distinct in-range file blocks have distinct data roles. -/
theorem dataRole_inj (bn bn' : Nat) (h1 : bn < MAXFILE) (h2 : bn' < MAXFILE)
    (hne : bn ≠ bn') : dataRole bn ≠ dataRole bn' := by
  intro hc
  unfold dataRole at hc
  simp only [MAXFILE, NDIRECT, NINDIRECT, NDINDIRECT] at h1 h2
  simp only [NDIRECT, NINDIRECT] at hc
  by_cases c1 : bn < 11 <;> by_cases c2 : bn' < 11 <;>
    simp only [c1, c2, if_true, if_false] at hc
  · exact hne (Role.direct.inj hc)
  · by_cases c3 : bn' < 11 + 128 <;>
      simp only [c3, if_true, if_false] at hc <;> cases hc
  · by_cases c3 : bn < 11 + 128 <;>
      simp only [c3, if_true, if_false] at hc <;> cases hc
  · by_cases c3 : bn < 11 + 128 <;> by_cases c4 : bn' < 11 + 128 <;>
      simp only [c3, c4, if_true, if_false] at hc
    · have h5 := Role.sEntry.inj hc
      exact hne (by omega)
    · cases hc
    · cases hc
    · obtain ⟨hd, hm⟩ := Role.dLeaf.inj hc
      exact hne (by omega)

/-- If a state change leaves the contents of the (nonzero) table blocks
alone, every role keeps its block. -/
theorem roleAddr_eq_of_frame (fs fs' : FsState) (ip : Dinode)
    (hfr : ∀ blk, blk ≠ 0 →
      (blk = roleAddr fs ip .single ∨ blk = roleAddr fs ip .double ∨
        ∃ j, blk = roleAddr fs ip (.dL1 j)) →
      fs'.data blk = fs.data blk) :
    ∀ r, roleAddr fs' ip r = roleAddr fs ip r := by
  intro r
  cases r with
  | direct i => rfl
  | single => rfl
  | double => rfl
  | sEntry j =>
    simp only [roleAddr]
    by_cases hc : j < NINDIRECT ∧ ip.addrs SINGLE_LINKED_INDIRECT_TABLE ≠ 0
    · rw [if_pos hc, if_pos hc, hfr _ hc.2 (Or.inl rfl)]
    · rw [if_neg hc, if_neg hc]
  | dL1 j =>
    simp only [roleAddr]
    by_cases hc : j < NINDIRECT ∧ ip.addrs DOUBLE_LINKED_INDIRECT_TABLE ≠ 0
    · rw [if_pos hc, if_pos hc, hfr _ hc.2 (Or.inr (Or.inl rfl))]
    · rw [if_neg hc, if_neg hc]
  | dLeaf j k =>
    simp only [roleAddr]
    by_cases hD : ip.addrs DOUBLE_LINKED_INDIRECT_TABLE = 0
    · rw [if_neg (by intro hc; exact hc.2.2.1 hD),
        if_neg (by intro hc; exact hc.2.2.1 hD)]
    · have hDfr : fs'.data (ip.addrs DOUBLE_LINKED_INDIRECT_TABLE) =
          fs.data (ip.addrs DOUBLE_LINKED_INDIRECT_TABLE) :=
        hfr _ hD (Or.inr (Or.inl rfl))
      rw [hDfr]
      by_cases hc : j < NINDIRECT ∧ k < NINDIRECT ∧
          ip.addrs DOUBLE_LINKED_INDIRECT_TABLE ≠ 0 ∧
          fs.data (ip.addrs DOUBLE_LINKED_INDIRECT_TABLE) j ≠ 0
      · rw [if_pos hc, if_pos hc]
        have hl1 : fs'.data (fs.data (ip.addrs DOUBLE_LINKED_INDIRECT_TABLE) j) =
            fs.data (fs.data (ip.addrs DOUBLE_LINKED_INDIRECT_TABLE) j) := by
          apply hfr _ hc.2.2.2
          right; right
          refine ⟨j, ?_⟩
          simp only [roleAddr]
          rw [if_pos ⟨hc.1, hc.2.2.1⟩]
        rw [hl1]
      · rw [if_neg hc, if_neg hc]

/-- If a state change leaves the contents of the table blocks alone,
every file block keeps its address. -/
theorem fileAddr_eq_of_frame (fs fs' : FsState) (ip : Dinode)
    (hfr : ∀ blk, blk ≠ 0 →
      (blk = roleAddr fs ip .single ∨ blk = roleAddr fs ip .double ∨
        ∃ j, blk = roleAddr fs ip (.dL1 j)) →
      fs'.data blk = fs.data blk) :
    ∀ bn, fileAddr fs' ip bn = fileAddr fs ip bn := by
  intro bn
  rw [fileAddr_eq_roleAddr, fileAddr_eq_roleAddr,
    roleAddr_eq_of_frame fs fs' ip hfr]

/-- The invariant survives any state change that preserves the geometry,
the bitmap bits and the table blocks' contents. -/
theorem Inv_frame (fs fs2 : FsState) (ip : Dinode) (hInv : Inv fs ip)
    (hsb1 : fs2.sbSize = fs.sbSize) (hsb2 : fs2.sbNinodes = fs.sbNinodes)
    (hbit : ∀ x, x < fs.sbSize → bitGet fs2 x = bitGet fs x)
    (hfr : ∀ blk, blk ≠ 0 →
      (blk = roleAddr fs ip .single ∨ blk = roleAddr fs ip .double ∨
        ∃ j, blk = roleAddr fs ip (.dL1 j)) →
      fs2.data blk = fs.data blk) :
    Inv fs2 ip := by
  have hds : dataStart fs2 = dataStart fs := by
    unfold dataStart BBLOCK
    rw [hsb1, hsb2]
  have hrole := roleAddr_eq_of_frame fs fs2 ip hfr
  constructor
  · rw [hsb1]; exact hInv.sbPos
  · rw [hds, hsb1]; exact hInv.geom
  · intro b hb
    rw [hds] at hb
    rw [hbit b (lt_of_lt_of_le hb hInv.geom)]
    exact hInv.meta b hb
  · intro r hr
    rw [hrole r] at hr ⊢
    obtain ⟨g1, g2, g3⟩ := hInv.refGood r hr
    exact ⟨by rw [hds]; exact g1, by rw [hsb1]; exact g2, by rw [hbit _ g2]; exact g3⟩
  · intro r1 r2 hr1 hr2 heq
    rw [hrole r1] at hr1
    rw [hrole r2] at hr2
    rw [hrole r1, hrole r2] at heq
    exact hInv.inj r1 r2 hr1 hr2 heq

/-- Writing data bytes into a mapped file block changes no role, no file
address, no bitmap bit, and keeps the invariant. -/
theorem Inv_data_write (fs : FsState) (ip : Dinode) (bnW addr : Nat)
    (hInv : Inv fs ip) (ha : fileAddr fs ip bnW = addr) (haz : addr ≠ 0)
    (o : Nat) (src : Nat → Nat) (so m : Nat) :
    Inv (blockWriteRange fs addr o src so m) ip ∧
    (∀ bn', fileAddr (blockWriteRange fs addr o src so m) ip bn' =
      fileAddr fs ip bn') ∧
    (∀ x, x < fs.sbSize →
      bitGet (blockWriteRange fs addr o src so m) x = bitGet fs x) := by
  have hrole : roleAddr fs ip (dataRole bnW) = addr := by
    rw [← fileAddr_eq_roleAddr]; exact ha
  have hdata : roleAddr fs ip (dataRole bnW) ≠ 0 := by rw [hrole]; exact haz
  have hfr : ∀ blk, blk ≠ 0 →
      (blk = roleAddr fs ip .single ∨ blk = roleAddr fs ip .double ∨
        ∃ j, blk = roleAddr fs ip (.dL1 j)) →
      (blockWriteRange fs addr o src so m).data blk = fs.data blk := by
    intro blk hbz htr
    apply blockWriteRange_data_ne
    intro hblk
    subst hblk
    rcases htr with h | h | ⟨j, h⟩
    · exact dataRole_ne_single bnW
        (hInv.inj _ _ hdata (h ▸ hbz) (hrole.trans h))
    · exact dataRole_ne_double bnW
        (hInv.inj _ _ hdata (h ▸ hbz) (hrole.trans h))
    · exact dataRole_ne_dL1 bnW j
        (hInv.inj _ _ hdata (h ▸ hbz) (hrole.trans h))
  have hhigh : dataStart fs ≤ addr := by
    have := hInv.refGood (dataRole bnW) hdata
    rw [hrole] at this
    exact this.1
  have hbit : ∀ x, x < fs.sbSize →
      bitGet (blockWriteRange fs addr o src so m) x = bitGet fs x := by
    intro x hx
    exact bitGet_bwr_high fs addr o src so m x hhigh hx
  exact ⟨Inv_frame fs _ ip hInv rfl rfl hbit hfr,
    fileAddr_eq_of_frame fs _ ip hfr, hbit⟩

/-- Recording a freshly zeroed block `t` in a zero `addrs` slot maps the
slot's role to `t` and leaves every other role's block unchanged. -/
theorem roleAddr_setAddr_zero (g : FsState) (ip : Dinode) (slot t : Nat)
    (hz : ip.addrs slot = 0) (htz : t ≠ 0)
    (hzero : ∀ i, i < BSIZE → g.data t i = 0)
    (hslot : slot < NDIRECT ∨ slot = SINGLE_LINKED_INDIRECT_TABLE ∨
      slot = DOUBLE_LINKED_INDIRECT_TABLE) :
    roleAddr g (setAddr ip slot t) (slotRole slot) = t ∧
    (∀ r, r ≠ slotRole slot → roleAddr g (setAddr ip slot t) r = roleAddr g ip r) := by
  have haddr : ∀ j, (setAddr ip slot t).addrs j = if j = slot then t else ip.addrs j := by
    intro j
    simp [setAddr]
  have hSD : SINGLE_LINKED_INDIRECT_TABLE ≠ DOUBLE_LINKED_INDIRECT_TABLE := by
    simp [SINGLE_LINKED_INDIRECT_TABLE, DOUBLE_LINKED_INDIRECT_TABLE, NDIRECT]
  rcases hslot with ha | hb | hc
  · -- direct slot
    have hslotS : slot ≠ SINGLE_LINKED_INDIRECT_TABLE := by
      simp only [SINGLE_LINKED_INDIRECT_TABLE, NDIRECT] at *
      omega
    have hslotD : slot ≠ DOUBLE_LINKED_INDIRECT_TABLE := by
      simp only [DOUBLE_LINKED_INDIRECT_TABLE, NDIRECT] at *
      omega
    have hrole : slotRole slot = .direct slot := by
      simp [slotRole, ha]
    rw [hrole]
    constructor
    · simp only [roleAddr]
      rw [if_pos ha, haddr slot, if_pos rfl]
    · intro r hr
      cases r with
      | direct i =>
        have hi : i ≠ slot := by
          intro he
          exact hr (by rw [he])
        simp only [roleAddr]
        rw [haddr i, if_neg hi]
      | single => simp only [roleAddr]; rw [haddr _, if_neg hslotS.symm]
      | double => simp only [roleAddr]; rw [haddr _, if_neg hslotD.symm]
      | sEntry j =>
        simp only [roleAddr]
        rw [haddr _, if_neg hslotS.symm]
      | dL1 j =>
        simp only [roleAddr]
        rw [haddr _, if_neg hslotD.symm]
      | dLeaf j k =>
        simp only [roleAddr]
        rw [haddr _, if_neg hslotD.symm]
  · -- single-indirect table slot
    subst hb
    have hrole : slotRole SINGLE_LINKED_INDIRECT_TABLE = .single := by
      simp [slotRole, SINGLE_LINKED_INDIRECT_TABLE, NDIRECT]
    rw [hrole]
    constructor
    · simp only [roleAddr]
      rw [haddr _, if_pos rfl]
    · intro r hr
      cases r with
      | direct i =>
        simp only [roleAddr]
        by_cases hi : i < NDIRECT
        · have : i ≠ SINGLE_LINKED_INDIRECT_TABLE := by
            simp only [SINGLE_LINKED_INDIRECT_TABLE] at *
            omega
          rw [if_pos hi, if_pos hi, haddr i, if_neg this]
        · rw [if_neg hi, if_neg hi]
      | single => exact absurd rfl hr
      | double => simp only [roleAddr]; rw [haddr _, if_neg hSD.symm]
      | sEntry j =>
        simp only [roleAddr]
        rw [haddr _, if_pos rfl, hz]
        by_cases hj : j < NINDIRECT
        · rw [if_pos ⟨hj, htz⟩, if_neg (by intro hcc; exact hcc.2 rfl)]
          exact hzero j (by simp only [NINDIRECT, BSIZE] at *; omega)
        · rw [if_neg (by intro hcc; exact hj hcc.1),
            if_neg (by intro hcc; exact hj hcc.1)]
      | dL1 j =>
        simp only [roleAddr]
        rw [haddr _, if_neg hSD.symm]
      | dLeaf j k =>
        simp only [roleAddr]
        rw [haddr _, if_neg hSD.symm]
  · -- double-indirect root slot
    subst hc
    have hrole : slotRole DOUBLE_LINKED_INDIRECT_TABLE = .double := by
      simp [slotRole, DOUBLE_LINKED_INDIRECT_TABLE, SINGLE_LINKED_INDIRECT_TABLE,
        NDIRECT]
    rw [hrole]
    constructor
    · simp only [roleAddr]
      rw [haddr _, if_pos rfl]
    · intro r hr
      cases r with
      | direct i =>
        simp only [roleAddr]
        by_cases hi : i < NDIRECT
        · have : i ≠ DOUBLE_LINKED_INDIRECT_TABLE := by
            simp only [DOUBLE_LINKED_INDIRECT_TABLE, NDIRECT] at *
            omega
          rw [if_pos hi, if_pos hi, haddr i, if_neg this]
        · rw [if_neg hi, if_neg hi]
      | single => simp only [roleAddr]; rw [haddr _, if_neg hSD]
      | double => exact absurd rfl hr
      | sEntry j =>
        simp only [roleAddr]
        rw [haddr _, if_neg hSD]
      | dL1 j =>
        simp only [roleAddr]
        rw [haddr _, if_pos rfl, hz]
        by_cases hj : j < NINDIRECT
        · rw [if_pos ⟨hj, htz⟩, if_neg (by intro hcc; exact hcc.2 rfl)]
          exact hzero j (by simp only [NINDIRECT, BSIZE] at *; omega)
        · rw [if_neg (by intro hcc; exact hj hcc.1),
            if_neg (by intro hcc; exact hj hcc.1)]
      | dLeaf j k =>
        simp only [roleAddr]
        rw [haddr _, if_pos rfl, hz]
        by_cases hcnd : j < NINDIRECT ∧ k < NINDIRECT ∧ t ≠ 0 ∧ g.data t j ≠ 0
        · exact absurd (hzero j (by simp only [NINDIRECT, BSIZE] at *; omega))
            hcnd.2.2.2
        · rw [if_neg hcnd, if_neg (by intro hcc; exact hcc.2.2.1 rfl)]

/-- No block is freshly allocated between a state and itself. -/
theorem freshBlocks_self (fs : FsState) : freshBlocks fs fs = ∅ := by
  unfold freshBlocks
  apply Finset.filter_false_of_mem
  intro x _
  simp

/-- Fresh allocations compose: the blocks newly marked across two steps
are at most those of each step together. -/
theorem freshBlocks_card_trans (fs fs2 fs3 : FsState)
    (hsb : fs2.sbSize = fs.sbSize) :
    (freshBlocks fs fs3).card ≤
      (freshBlocks fs fs2).card + (freshBlocks fs2 fs3).card := by
  have hsub : freshBlocks fs fs3 ⊆ freshBlocks fs fs2 ∪ freshBlocks fs2 fs3 := by
    intro b hb
    simp only [freshBlocks, Finset.mem_filter, Finset.mem_range] at hb
    rw [Finset.mem_union]
    by_cases h2 : bitGet fs2 b = true
    · left
      simp only [freshBlocks, Finset.mem_filter, Finset.mem_range]
      exact ⟨hb.1, hb.2.1, h2⟩
    · right
      simp only [freshBlocks, Finset.mem_filter, Finset.mem_range]
      refine ⟨by rw [hsb]; exact hb.1, ?_, hb.2.2⟩
      simpa using h2
  calc (freshBlocks fs fs3).card
      ≤ (freshBlocks fs fs2 ∪ freshBlocks fs2 fs3).card := Finset.card_le_card hsub
    _ ≤ _ := Finset.card_union_le _ _

/-- Writing a fresh nonzero block address `a` into entry `idx` of the
table block playing role `rT` maps the child role of that entry to `a`
and leaves every other role's block unchanged. -/
theorem roleAddr_tableWrite (fs : FsState) (ip : Dinode) (rT : Role)
    (blk idx a : Nat) (hInv : Inv fs ip)
    (hT : rT = .single ∨ rT = .double ∨ ∃ j, rT = .dL1 j)
    (hblk : roleAddr fs ip rT = blk) (hbz : blk ≠ 0) (hidx : idx < NINDIRECT)
    (ha : fs.data blk idx = 0) (haz : a ≠ 0)
    (hfresh : ∀ r, roleAddr fs ip r ≠ a)
    (hzero : ∀ i, i < NINDIRECT → fs.data a i = 0) :
    roleAddr (fsWrite fs blk idx a) ip (childRole rT idx) = a ∧
    (∀ r, r ≠ childRole rT idx →
      roleAddr (fsWrite fs blk idx a) ip r = roleAddr fs ip r) := by
  have hw : ∀ b' i', ¬(b' = blk ∧ i' = idx) →
      (fsWrite fs blk idx a).data b' i' = fs.data b' i' := by
    intro b' i' hne
    show (if b' = blk ∧ i' = idx then a else fs.data b' i') = fs.data b' i'
    exact if_neg hne
  have hwe : (fsWrite fs blk idx a).data blk idx = a := by
    show (if blk = blk ∧ idx = idx then a else fs.data blk idx) = a
    rw [if_pos ⟨rfl, rfl⟩]
  have hab : blk ≠ a := by rw [← hblk]; exact hfresh rT
  have huniq : ∀ r', roleAddr fs ip r' = blk → r' = rT := by
    intro r' he
    exact hInv.inj r' rT (by rw [he]; exact hbz) (by rw [hblk]; exact hbz)
      (he.trans hblk.symm)
  constructor
  · -- the child role now maps to the fresh block
    rcases hT with h1 | h1 | ⟨j0, h1⟩ <;> subst h1
    · have hS : ip.addrs SINGLE_LINKED_INDIRECT_TABLE = blk := by
        simpa only [roleAddr] using hblk
      simp only [childRole, roleAddr]
      rw [hS, if_pos ⟨hidx, hbz⟩, hwe]
    · have hD : ip.addrs DOUBLE_LINKED_INDIRECT_TABLE = blk := by
        simpa only [roleAddr] using hblk
      simp only [childRole, roleAddr]
      rw [hD, if_pos ⟨hidx, hbz⟩, hwe]
    · have hblk' := hblk
      simp only [roleAddr] at hblk'
      by_cases hcond : j0 < NINDIRECT ∧ ip.addrs DOUBLE_LINKED_INDIRECT_TABLE ≠ 0
      · rw [if_pos hcond] at hblk'
        have hDne : ip.addrs DOUBLE_LINKED_INDIRECT_TABLE ≠ blk := by
          intro he
          have h2 := huniq .double (by simp only [roleAddr]; exact he)
          exact Role.noConfusion h2
        simp only [childRole, roleAddr]
        have hDW : (fsWrite fs blk idx a).data
            (ip.addrs DOUBLE_LINKED_INDIRECT_TABLE) j0 = blk := by
          rw [hw _ j0 (fun hp => hDne hp.1)]
          exact hblk'
        rw [hDW, if_pos ⟨hcond.1, hidx, hcond.2, hbz⟩, hwe]
      · rw [if_neg hcond] at hblk'
        exact absurd hblk'.symm hbz
  · -- every other role is untouched
    intro r hr
    cases r with
    | direct i => rfl
    | single => rfl
    | double => rfl
    | sEntry j =>
      simp only [roleAddr]
      by_cases hc : j < NINDIRECT ∧ ip.addrs SINGLE_LINKED_INDIRECT_TABLE ≠ 0
      · rw [if_pos hc, if_pos hc]
        by_cases hSb : ip.addrs SINGLE_LINKED_INDIRECT_TABLE = blk
        · have hrT := huniq .single (by simp only [roleAddr]; exact hSb)
          rw [← hrT] at hr
          simp only [childRole] at hr
          have hje : j ≠ idx := fun he => hr (by rw [he])
          rw [hSb]
          exact hw blk j (fun hp => hje hp.2)
        · exact hw _ j (fun hp => hSb hp.1)
      · rw [if_neg hc, if_neg hc]
    | dL1 j =>
      simp only [roleAddr]
      by_cases hc : j < NINDIRECT ∧ ip.addrs DOUBLE_LINKED_INDIRECT_TABLE ≠ 0
      · rw [if_pos hc, if_pos hc]
        by_cases hDb : ip.addrs DOUBLE_LINKED_INDIRECT_TABLE = blk
        · have hrT := huniq .double (by simp only [roleAddr]; exact hDb)
          rw [← hrT] at hr
          simp only [childRole] at hr
          have hje : j ≠ idx := fun he => hr (by rw [he])
          rw [hDb]
          exact hw blk j (fun hp => hje hp.2)
        · exact hw _ j (fun hp => hDb hp.1)
      · rw [if_neg hc, if_neg hc]
    | dLeaf j k =>
      simp only [roleAddr]
      by_cases hc0 : j < NINDIRECT ∧ k < NINDIRECT ∧
          ip.addrs DOUBLE_LINKED_INDIRECT_TABLE ≠ 0
      · by_cases hDb : ip.addrs DOUBLE_LINKED_INDIRECT_TABLE = blk
        · have hrT := huniq .double (by simp only [roleAddr]; exact hDb)
          by_cases hje : j = idx
          · subst hje
            rw [hDb, hwe, ha]
            rw [if_pos ⟨hc0.1, hc0.2.1, hbz, haz⟩,
              if_neg (fun hcc => hcc.2.2.2 rfl)]
            rw [hw a k (fun hp => hab hp.1.symm)]
            exact hzero k hc0.2.1
          · have hDW : (fsWrite fs blk idx a).data
                (ip.addrs DOUBLE_LINKED_INDIRECT_TABLE) j =
                fs.data (ip.addrs DOUBLE_LINKED_INDIRECT_TABLE) j := by
              rw [hDb]
              exact hw blk j (fun hp => hje hp.2)
            rw [hDW]
            by_cases hL : fs.data (ip.addrs DOUBLE_LINKED_INDIRECT_TABLE) j = 0
            · rw [if_neg (fun hcc => hcc.2.2.2 hL),
                if_neg (fun hcc => hcc.2.2.2 hL)]
            · rw [if_pos ⟨hc0.1, hc0.2.1, hc0.2.2, hL⟩,
                if_pos ⟨hc0.1, hc0.2.1, hc0.2.2, hL⟩]
              by_cases hLb : fs.data (ip.addrs DOUBLE_LINKED_INDIRECT_TABLE) j = blk
              · have h2 := huniq (.dL1 j)
                  (by simp only [roleAddr]; rw [if_pos ⟨hc0.1, hc0.2.2⟩]; exact hLb)
                rw [← hrT] at h2
                exact Role.noConfusion h2
              · exact hw _ k (fun hp => hLb hp.1)
        · have hDW : (fsWrite fs blk idx a).data
              (ip.addrs DOUBLE_LINKED_INDIRECT_TABLE) j =
              fs.data (ip.addrs DOUBLE_LINKED_INDIRECT_TABLE) j :=
            hw _ j (fun hp => hDb hp.1)
          rw [hDW]
          by_cases hL : fs.data (ip.addrs DOUBLE_LINKED_INDIRECT_TABLE) j = 0
          · rw [if_neg (fun hcc => hcc.2.2.2 hL),
              if_neg (fun hcc => hcc.2.2.2 hL)]
          · rw [if_pos ⟨hc0.1, hc0.2.1, hc0.2.2, hL⟩,
              if_pos ⟨hc0.1, hc0.2.1, hc0.2.2, hL⟩]
            by_cases hLb : fs.data (ip.addrs DOUBLE_LINKED_INDIRECT_TABLE) j = blk
            · have h2 := huniq (.dL1 j)
                (by simp only [roleAddr]; rw [if_pos ⟨hc0.1, hc0.2.2⟩]; exact hLb)
              rw [← h2] at hr
              simp only [childRole] at hr
              have hke : k ≠ idx := fun he => hr (by rw [he])
              rw [hLb]
              exact hw blk k (fun hp => hke hp.2)
            · exact hw _ k (fun hp => hLb hp.1)
      · rw [if_neg (fun hcc => hc0 ⟨hcc.1, hcc.2.1, hcc.2.2.1⟩),
          if_neg (fun hcc => hc0 ⟨hcc.1, hcc.2.1, hcc.2.2.1⟩)]

/-- Specification of one table-entry stage of `bmap`: reading (lazily
allocating) entry `idx` of the table block playing role `rT` maps the
child role of that entry to the returned address, leaves every other
role and every other referenced block untouched, releases nothing,
returns freshly allocated blocks zeroed, and allocates at most one
block. -/
theorem bmapEntry_spec (fs : FsState) (ip : Dinode) (rT : Role) (blk idx : Nat)
    (hInv : Inv fs ip)
    (hT : rT = .single ∨ rT = .double ∨ ∃ j, rT = .dL1 j)
    (hblk : roleAddr fs ip rT = blk) (hbz : blk ≠ 0) (hidx : idx < NINDIRECT)
    (a : Nat) (fs2 : FsState)
    (h : bmapEntry fs blk idx = some (a, fs2)) :
    Inv fs2 ip ∧ a ≠ 0 ∧
    roleAddr fs2 ip (childRole rT idx) = a ∧
    (∀ r, r ≠ childRole rT idx → roleAddr fs2 ip r = roleAddr fs ip r) ∧
    (∀ b', b' ≠ 0 → b' ≠ blk → (∃ r, roleAddr fs ip r = b') →
      fs2.data b' = fs.data b') ∧
    (∀ x, x < fs.sbSize → bitGet fs x = true → bitGet fs2 x = true) ∧
    (fs.data blk idx = 0 → ∀ i, i < BSIZE → fs2.data a i = 0) ∧
    (fs.data blk idx ≠ 0 → fs2 = fs) ∧
    fs2.inodes = fs.inodes ∧ fs2.sbSize = fs.sbSize ∧ fs2.sbNinodes = fs.sbNinodes ∧
    (freshBlocks fs fs2).card ≤ 1 := by
  unfold bmapEntry at h
  by_cases hg : fs.data blk idx = 0
  · rw [if_pos hg] at h
    cases hb : balloc fs with
    | none => rw [hb] at h; cases h
    | some pr =>
      obtain ⟨a0, fs1⟩ := pr
      simp only [hb] at h
      have hae : a = a0 := congrArg Prod.fst (Option.some.inj h).symm
      subst hae
      have hfse : fs2 = fsWrite fs1 blk idx a :=
        (congrArg Prod.snd (Option.some.inj h)).symm
      subst hfse
      obtain ⟨hds, hlt, hfree, hnoref, hbt, hbframe, hdframe, hzero, hsb1, hsb2,
        hino, hcard⟩ := balloc_spec fs ip a fs1 hInv hb
      have haz : a ≠ 0 := by
        have := dataStart_pos fs
        omega
      have hab' : a ≠ blk := fun he => hnoref rT (hblk.trans he.symm)
      have hrefblk := hInv.refGood rT (by rw [hblk]; exact hbz)
      rw [hblk] at hrefblk
      -- the allocation step leaves every referenced block's data alone
      have hfr1 : ∀ b', b' ≠ 0 → (∃ r, roleAddr fs ip r = b') →
          fs1.data b' = fs.data b' := by
        intro b' hbz' ⟨r, hr⟩
        have hgood := hInv.refGood r (by rw [hr]; exact hbz')
        rw [hr] at hgood
        apply hdframe
        · intro he
          exact hnoref r (hr.trans he)
        · intro he
          have := BBLOCK_lt_dataStart fs a hlt
          omega
      have hroleb : ∀ r, roleAddr fs1 ip r = roleAddr fs ip r := by
        apply roleAddr_eq_of_frame
        intro b' hbz' htr
        apply hfr1 b' hbz'
        rcases htr with h' | h' | ⟨j, h'⟩
        · exact ⟨.single, h'.symm⟩
        · exact ⟨.double, h'.symm⟩
        · exact ⟨.dL1 j, h'.symm⟩
      have hdseq : dataStart fs1 = dataStart fs := by
        unfold dataStart BBLOCK
        rw [hsb1, hsb2]
      have hInv1 : Inv fs1 ip := by
        constructor
        · rw [hsb1]; exact hInv.sbPos
        · rw [hdseq, hsb1]; exact hInv.geom
        · intro b hbd
          rw [hdseq] at hbd
          rw [hbframe b (lt_of_lt_of_le hbd hInv.geom) (by omega)]
          exact hInv.meta b hbd
        · intro r hr
          rw [hroleb r] at hr ⊢
          obtain ⟨g1, g2, g3⟩ := hInv.refGood r hr
          refine ⟨by rw [hdseq]; exact g1, by rw [hsb1]; exact g2, ?_⟩
          rw [hbframe _ g2 (fun he => hnoref r he)]
          exact g3
        · intro r1 r2 hr1 hr2 heq
          rw [hroleb r1] at hr1 heq
          rw [hroleb r2] at hr2 heq
          exact hInv.inj r1 r2 hr1 hr2 heq
      have hblk1 : roleAddr fs1 ip rT = blk := by rw [hroleb]; exact hblk
      have ha1 : fs1.data blk idx = 0 := by
        rw [congrFun (hfr1 blk hbz ⟨rT, hblk⟩) idx]
        exact hg
      have hfresh1 : ∀ r, roleAddr fs1 ip r ≠ a := fun r => by
        rw [hroleb r]; exact hnoref r
      have hzero1 : ∀ i, i < NINDIRECT → fs1.data a i = 0 := fun i hi =>
        hzero i (by simp only [NINDIRECT, BSIZE] at *; omega)
      obtain ⟨hrw1, hrw2⟩ := roleAddr_tableWrite fs1 ip rT blk idx a hInv1 hT
        hblk1 hbz hidx ha1 haz hfresh1 hzero1
      have hrole2 : ∀ r, r ≠ childRole rT idx →
          roleAddr (fsWrite fs1 blk idx a) ip r = roleAddr fs ip r := by
        intro r hr
        rw [hrw2 r hr, hroleb r]
      have hsb1' : (fsWrite fs1 blk idx a).sbSize = fs.sbSize := hsb1
      have hsb2' : (fsWrite fs1 blk idx a).sbNinodes = fs.sbNinodes := hsb2
      have hbit2 : ∀ x, x < fs.sbSize →
          bitGet (fsWrite fs1 blk idx a) x = bitGet fs1 x := by
        intro x hx
        exact bitGet_fsWrite_high fs1 blk idx a x
          (by rw [hdseq]; exact hrefblk.1) (by rw [hsb1]; exact hx)
      have hdseq2 : dataStart (fsWrite fs1 blk idx a) = dataStart fs := by
        unfold dataStart BBLOCK
        rw [hsb1', hsb2']
      have hInv2 : Inv (fsWrite fs1 blk idx a) ip := by
        constructor
        · rw [hsb1']; exact hInv.sbPos
        · rw [hdseq2, hsb1']; exact hInv.geom
        · intro b hbd
          rw [hdseq2] at hbd
          rw [hbit2 b (lt_of_lt_of_le hbd hInv.geom),
            hbframe b (lt_of_lt_of_le hbd hInv.geom) (by omega)]
          exact hInv.meta b hbd
        · intro r hr
          by_cases hrc : r = childRole rT idx
          · subst hrc
            rw [hrw1] at hr ⊢
            exact ⟨by rw [hdseq2]; exact hds, by rw [hsb1']; exact hlt,
              by rw [hbit2 a hlt]; exact hbt⟩
          · rw [hrole2 r hrc] at hr ⊢
            obtain ⟨g1, g2, g3⟩ := hInv.refGood r hr
            refine ⟨by rw [hdseq2]; exact g1, by rw [hsb1']; exact g2, ?_⟩
            rw [hbit2 _ g2, hbframe _ g2 (fun he => hnoref r he)]
            exact g3
        · intro r1 r2 hr1 hr2 heq
          by_cases h1 : r1 = childRole rT idx <;>
            by_cases h2 : r2 = childRole rT idx
          · rw [h1, h2]
          · subst h1
            rw [hrw1] at heq hr1
            rw [hrole2 r2 h2] at heq hr2
            exact absurd heq.symm (hnoref r2)
          · subst h2
            rw [hrw1] at heq hr2
            rw [hrole2 r1 h1] at heq hr1
            exact absurd heq (hnoref r1)
          · rw [hrole2 r1 h1] at heq hr1
            rw [hrole2 r2 h2] at heq hr2
            exact hInv.inj r1 r2 hr1 hr2 heq
      have hfb : freshBlocks fs (fsWrite fs1 blk idx a) = freshBlocks fs fs1 := by
        unfold freshBlocks
        apply Finset.filter_congr
        intro x hx
        rw [Finset.mem_range] at hx
        rw [hbit2 x hx]
      refine ⟨hInv2, haz, hrw1, hrole2, ?_, ?_, ?_, fun hcc => absurd hg hcc,
        hino, hsb1', hsb2', ?_⟩
      · intro b' hbz' hbb href
        rw [fsWrite_data_ne fs1 blk idx a b' hbb]
        exact hfr1 b' hbz' href
      · intro x hx hb1
        rw [hbit2 x hx]
        by_cases hxa : x = a
        · rw [hxa]; exact hbt
        · rw [hbframe x hx hxa]; exact hb1
      · intro _ i hi
        rw [congrFun (fsWrite_data_ne fs1 blk idx a a hab') i]
        exact hzero i hi
      · rw [hfb]
        exact hcard
  · rw [if_neg hg] at h
    have hae : a = fs.data blk idx := (congrArg Prod.fst (Option.some.inj h)).symm
    have hfse : fs2 = fs := (congrArg Prod.snd (Option.some.inj h)).symm
    subst hae hfse
    refine ⟨hInv, hg, ?_, fun r _ => rfl, fun b' _ _ _ => rfl, fun x _ hb => hb,
      fun hcc => absurd hcc hg, fun _ => rfl, rfl, rfl, rfl,
      by rw [freshBlocks_self]; simp⟩
    rcases hT with h1 | h1 | ⟨j0, h1⟩ <;> subst h1
    · have hS : ip.addrs SINGLE_LINKED_INDIRECT_TABLE = blk := by
        simpa only [roleAddr] using hblk
      simp only [childRole, roleAddr]
      rw [hS, if_pos ⟨hidx, hbz⟩]
    · have hD : ip.addrs DOUBLE_LINKED_INDIRECT_TABLE = blk := by
        simpa only [roleAddr] using hblk
      simp only [childRole, roleAddr]
      rw [hD, if_pos ⟨hidx, hbz⟩]
    · have hblk' := hblk
      simp only [roleAddr] at hblk'
      by_cases hcond : j0 < NINDIRECT ∧ ip.addrs DOUBLE_LINKED_INDIRECT_TABLE ≠ 0
      · rw [if_pos hcond] at hblk'
        simp only [childRole, roleAddr]
        rw [hblk', if_pos ⟨hcond.1, hidx, hcond.2, hbz⟩]
      · rw [if_neg hcond] at hblk'
        exact absurd hblk'.symm hbz

/-- Specification of one slot stage of `bmap`: the slot's role maps to
the returned table/data block, every other role is untouched, previously
mapped file blocks keep their addresses, the contents of every
referenced block are untouched, no allocated block is released, freshly
allocated tables come back zeroed, and at most one block is newly
allocated. -/
theorem bmapSlot_spec (fs : FsState) (ip : Dinode) (slot : Nat)
    (hInv : Inv fs ip)
    (hslot : slot < NDIRECT ∨ slot = SINGLE_LINKED_INDIRECT_TABLE ∨
      slot = DOUBLE_LINKED_INDIRECT_TABLE)
    (t : Nat) (fs1 : FsState) (ip1 : Dinode)
    (h : bmapSlot fs ip slot = some (t, fs1, ip1)) :
    Inv fs1 ip1 ∧ t ≠ 0 ∧
    roleAddr fs1 ip1 (slotRole slot) = t ∧
    (∀ r, r ≠ slotRole slot → roleAddr fs1 ip1 r = roleAddr fs ip r) ∧
    (∀ bn', fileAddr fs ip bn' ≠ 0 → fileAddr fs1 ip1 bn' = fileAddr fs ip bn') ∧
    (∀ b', b' ≠ 0 → (∃ r, roleAddr fs ip r = b') → fs1.data b' = fs.data b') ∧
    (∀ x, x < fs.sbSize → bitGet fs x = true → bitGet fs1 x = true) ∧
    (ip.addrs slot = 0 → ∀ i, i < BSIZE → fs1.data t i = 0) ∧
    ip1.size = ip.size ∧ ip1.type = ip.type ∧ ip1.inum = ip.inum ∧
    fs1.inodes = fs.inodes ∧ fs1.sbSize = fs.sbSize ∧ fs1.sbNinodes = fs.sbNinodes ∧
    (freshBlocks fs fs1).card ≤ 1 := by
  have hslotRoleVal : roleAddr fs ip (slotRole slot) = ip.addrs slot := by
    rcases hslot with ha | hb | hc
    · simp only [slotRole, if_pos ha, roleAddr]
    · subst hb
      simp [slotRole, roleAddr, SINGLE_LINKED_INDIRECT_TABLE, NDIRECT]
    · subst hc
      simp [slotRole, roleAddr, DOUBLE_LINKED_INDIRECT_TABLE,
        SINGLE_LINKED_INDIRECT_TABLE, NDIRECT]
  unfold bmapSlot at h
  by_cases hz : ip.addrs slot = 0
  · rw [if_pos hz] at h
    cases hb : balloc fs with
    | none => rw [hb] at h; cases h
    | some pr =>
      obtain ⟨t0, fsb⟩ := pr
      simp only [hb] at h
      have ht : t = t0 := (congrArg Prod.fst (Option.some.inj h)).symm
      have hfseq : fs1 = fsb := (congrArg (fun x => x.2.1) (Option.some.inj h)).symm
      subst ht hfseq
      have hip1 : ip1 = setAddr ip slot t :=
        (congrArg (fun x => x.2.2) (Option.some.inj h)).symm
      subst hip1
      obtain ⟨hds, hlt, hfree, hnoref, hbt, hbframe, hdframe, hzero, hsb1, hsb2,
        hino, hcard⟩ := balloc_spec fs ip t fs1 hInv hb
      have htz : t ≠ 0 := by
        have := dataStart_pos fs
        omega
      -- contents of referenced blocks are untouched
      have hfr : ∀ b', b' ≠ 0 → (∃ r, roleAddr fs ip r = b') →
          fs1.data b' = fs.data b' := by
        intro b' hbz ⟨r, hr⟩
        have hgood := hInv.refGood r (by rw [hr]; exact hbz)
        rw [hr] at hgood
        apply hdframe
        · intro he
          exact hnoref r (hr.trans he)
        · intro he
          have := BBLOCK_lt_dataStart fs t hlt
          omega
      -- roles of the unchanged inode are untouched by the allocation
      have hroleb : ∀ r, roleAddr fs1 ip r = roleAddr fs ip r := by
        apply roleAddr_eq_of_frame
        intro blk hbz htr
        apply hfr blk hbz
        rcases htr with h | h | ⟨j, h⟩
        · exact ⟨.single, h.symm⟩
        · exact ⟨.double, h.symm⟩
        · exact ⟨.dL1 j, h.symm⟩
      -- the new slot points at the zeroed block, other roles unchanged
      obtain ⟨hset1, hset2⟩ := roleAddr_setAddr_zero fs1 ip slot t hz htz
        (fun i hi => hzero i hi) hslot
      have hrole1 : roleAddr fs1 (setAddr ip slot t) (slotRole slot) = t := hset1
      have hrole2 : ∀ r, r ≠ slotRole slot →
          roleAddr fs1 (setAddr ip slot t) r = roleAddr fs ip r := by
        intro r hr
        rw [hset2 r hr, hroleb r]
      have hInv1 : Inv fs1 (setAddr ip slot t) := by
        constructor
        · rw [hsb1]; exact hInv.sbPos
        · have : dataStart fs1 = dataStart fs := by
            unfold dataStart BBLOCK
            rw [hsb1, hsb2]
          rw [this, hsb1]
          exact hInv.geom
        · intro b hbd
          have hdseq : dataStart fs1 = dataStart fs := by
            unfold dataStart BBLOCK
            rw [hsb1, hsb2]
          rw [hdseq] at hbd
          rw [hbframe b (lt_of_lt_of_le hbd hInv.geom) (by omega)]
          exact hInv.meta b hbd
        · intro r hr
          have hdseq : dataStart fs1 = dataStart fs := by
            unfold dataStart BBLOCK
            rw [hsb1, hsb2]
          by_cases hrs : r = slotRole slot
          · subst hrs
            rw [hrole1] at hr ⊢
            exact ⟨by rw [hdseq]; exact hds, by rw [hsb1]; exact hlt, hbt⟩
          · rw [hrole2 r hrs] at hr ⊢
            obtain ⟨g1, g2, g3⟩ := hInv.refGood r hr
            refine ⟨by rw [hdseq]; exact g1, by rw [hsb1]; exact g2, ?_⟩
            rw [hbframe _ g2 (fun he => hnoref r he)]
            exact g3
        · intro r1 r2 hr1 hr2 heq
          by_cases h1 : r1 = slotRole slot <;> by_cases h2 : r2 = slotRole slot
          · rw [h1, h2]
          · subst h1
            rw [hrole1] at heq hr1
            rw [hrole2 r2 h2] at heq hr2
            exact absurd heq.symm (hnoref r2)
          · subst h2
            rw [hrole1] at heq hr2
            rw [hrole2 r1 h1] at heq hr1
            exact absurd heq (hnoref r1)
          · rw [hrole2 r1 h1] at heq hr1
            rw [hrole2 r2 h2] at heq hr2
            exact hInv.inj r1 r2 hr1 hr2 heq
      have hmono : ∀ bn', fileAddr fs ip bn' ≠ 0 →
          fileAddr fs1 (setAddr ip slot t) bn' = fileAddr fs ip bn' := by
        intro bn' hnz
        rw [fileAddr_eq_roleAddr, fileAddr_eq_roleAddr] at *
        apply hrole2
        intro he
        rw [he, hslotRoleVal, hz] at hnz
        exact hnz rfl
      refine ⟨hInv1, htz, hrole1, hrole2, hmono, hfr, ?_, fun _ => hzero, ?_⟩
      · intro x hx hb1
        by_cases hxt : x = t
        · rw [hxt]; exact hbt
        · rw [hbframe x hx hxt]; exact hb1
      · exact ⟨rfl, rfl, rfl, hino, hsb1, hsb2, hcard⟩
  · rw [if_neg hz] at h
    have ht : ip.addrs slot = t := congrArg Prod.fst (Option.some.inj h)
    have hfs1 : fs = fs1 := congrArg (fun x => x.2.1) (Option.some.inj h)
    have hip1 : ip = ip1 := congrArg (fun x => x.2.2) (Option.some.inj h)
    subst hfs1 hip1
    refine ⟨hInv, by rw [← ht]; exact hz, by rw [hslotRoleVal]; exact ht,
      fun r _ => rfl, fun bn' _ => rfl, fun b' _ _ => rfl, fun x _ hb => hb,
      fun hzz => absurd hzz hz, rfl, rfl, rfl, rfl, rfl, rfl, ?_⟩
    have : freshBlocks fs fs = ∅ := by
      unfold freshBlocks
      apply Finset.filter_false_of_mem
      intro x _
      simp
    rw [this]
    simp

/-- Specification of a successful `bmap` call: the separation invariant
is maintained, the returned address is now recorded for `bn` and is
nonzero, previously mapped file blocks keep both their addresses and
their contents, the inode's other fields and the volume geometry are
untouched, no allocated block is released, and at most one block is
newly allocated per level of the tier serving `bn`. -/
theorem bmap_spec (fs : FsState) (ip : Dinode) (bn : Nat)
    (hInv : Inv fs ip) (hbn : bn < MAXFILE)
    (addr : Nat) (fs' : FsState) (ip' : Dinode)
    (h : bmap fs ip bn = some (addr, fs', ip')) :
    BmapPost fs ip bn
      (if bn < NDIRECT then 1 else if bn < NDIRECT + NINDIRECT then 2 else 3)
      addr fs' ip' := by
  simp only [bmap] at h
  by_cases h1 : bn < NDIRECT
  · rw [if_pos h1] at h
    obtain ⟨hI, hnz, hra, hrfr, hmono, hdfr, hbit, hzr, hsz, hty, hin, hins,
      hs1, hs2, hcd⟩ := bmapSlot_spec fs ip bn hInv (Or.inl h1) addr fs' ip' h
    have hsr : slotRole bn = dataRole bn := by
      simp only [slotRole, dataRole, if_pos h1]
    refine ⟨hI, ?_, hnz, hmono, ?_, hsz, hty, hin, hins, hs1, hs2, hbit, ?_⟩
    · rw [fileAddr_eq_roleAddr, ← hsr]
      exact hra
    · intro bn' hnzf
      exact hdfr _ hnzf ⟨dataRole bn', (fileAddr_eq_roleAddr fs ip bn').symm⟩
    · rw [if_pos h1]
      exact hcd
  · rw [if_neg h1] at h
    by_cases h2 : bn - NDIRECT < NINDIRECT
    · rw [if_pos h2] at h
      cases hS : bmapSlot fs ip SINGLE_LINKED_INDIRECT_TABLE with
      | none => rw [hS] at h; cases h
      | some pr =>
        obtain ⟨t, fs1, ip1⟩ := pr
        simp only [hS] at h
        cases hE : bmapEntry fs1 t (bn - NDIRECT) with
        | none => simp only [hE] at h; exact Option.noConfusion h
        | some pr2 =>
          obtain ⟨a, fs2⟩ := pr2
          simp only [hE] at h
          have haddr : addr = a := (congrArg (fun x => x.1) (Option.some.inj h)).symm
          have hfs2 : fs' = fs2 := (congrArg (fun x => x.2.1) (Option.some.inj h)).symm
          have hip1 : ip' = ip1 := (congrArg (fun x => x.2.2) (Option.some.inj h)).symm
          subst haddr hfs2 hip1
          obtain ⟨hI1, htnz, hraS, hfrS, hmonoS, hdfrS, hbitS, hzrS, hszS, htyS,
            hinS, hinoS, hs1S, hs2S, hcdS⟩ :=
            bmapSlot_spec fs ip SINGLE_LINKED_INDIRECT_TABLE hInv
              (Or.inr (Or.inl rfl)) t fs1 ip' hS
          have hsrS : slotRole SINGLE_LINKED_INDIRECT_TABLE = Role.single := by
            simp [slotRole, SINGLE_LINKED_INDIRECT_TABLE, NDIRECT]
          rw [hsrS] at hraS hfrS
          obtain ⟨hI2, hanz, hraE, hfrE, hdfrE, hbitE, hzrE, hunE, hinoE, hs1E,
            hs2E, hcdE⟩ :=
            bmapEntry_spec fs1 ip' .single t (bn - NDIRECT) hI1 (Or.inl rfl)
              hraS htnz h2 addr fs' hE
          simp only [childRole] at hraE hfrE
          have hdr : dataRole bn = .sEntry (bn - NDIRECT) := by
            simp only [dataRole, if_neg h1,
              if_pos (show bn < NDIRECT + NINDIRECT by omega)]
          have hmono2 : ∀ bn', fileAddr fs ip bn' ≠ 0 →
              fileAddr fs' ip' bn' = fileAddr fs ip bn' := by
            intro bn' hnz'
            have hm1 : fileAddr fs1 ip' bn' = fileAddr fs ip bn' := hmonoS bn' hnz'
            by_cases hex : fs1.data t (bn - NDIRECT) = 0
            · have hSa : ip'.addrs SINGLE_LINKED_INDIRECT_TABLE = t := by
                simpa only [roleAddr] using hraS
              have hz0 : roleAddr fs1 ip' (.sEntry (bn - NDIRECT)) = 0 := by
                simp only [roleAddr]
                rw [if_pos ⟨h2, by rw [hSa]; exact htnz⟩, hSa]
                exact hex
              have hne : dataRole bn' ≠ Role.sEntry (bn - NDIRECT) := by
                intro he
                have hz1 : fileAddr fs1 ip' bn' = 0 := by
                  rw [fileAddr_eq_roleAddr, he, hz0]
                rw [hm1] at hz1
                exact hnz' hz1
              rw [fileAddr_eq_roleAddr fs' ip' bn', hfrE _ hne,
                ← fileAddr_eq_roleAddr, hm1]
            · rw [hunE hex]
              exact hm1
          refine ⟨hI2, ?_, hanz, hmono2, ?_, hszS, htyS, hinS,
            hinoE.trans hinoS, hs1E.trans hs1S, hs2E.trans hs2S, ?_, ?_⟩
          · rw [fileAddr_eq_roleAddr, hdr]
            exact hraE
          · intro bn' hnz'
            have hm1 : fileAddr fs1 ip' bn' = fileAddr fs ip bn' := hmonoS bn' hnz'
            have hrefS : fs1.data (fileAddr fs ip bn') =
                fs.data (fileAddr fs ip bn') :=
              hdfrS _ hnz' ⟨dataRole bn', (fileAddr_eq_roleAddr fs ip bn').symm⟩
            have hrr : roleAddr fs1 ip' (dataRole bn') = fileAddr fs ip bn' := by
              rw [← fileAddr_eq_roleAddr, hm1]
            have hne_t : fileAddr fs ip bn' ≠ t := by
              intro he
              have e1 : roleAddr fs1 ip' (dataRole bn') = t := by rw [hrr, he]
              have e2 := hI1.inj (dataRole bn') .single
                (by rw [e1]; exact htnz) (by rw [hraS]; exact htnz)
                (e1.trans hraS.symm)
              exact dataRole_ne_single bn' e2
            rw [hdfrE _ hnz' hne_t ⟨dataRole bn', hrr⟩]
            exact hrefS
          · intro x hx hb
            exact hbitE x (by rw [hs1S]; exact hx) (hbitS x hx hb)
          · rw [if_neg h1, if_pos (show bn < NDIRECT + NINDIRECT by omega)]
            calc (freshBlocks fs fs').card
                ≤ (freshBlocks fs fs1).card + (freshBlocks fs1 fs').card :=
                  freshBlocks_card_trans fs fs1 fs' hs1S
              _ ≤ 2 := by omega
    · rw [if_neg h2] at h
      have h3 : bn - NDIRECT - NINDIRECT < NDINDIRECT := by
        simp only [MAXFILE, NDIRECT, NINDIRECT, NDINDIRECT] at hbn ⊢
        omega
      rw [if_pos h3] at h
      cases hS : bmapSlot fs ip DOUBLE_LINKED_INDIRECT_TABLE with
      | none => rw [hS] at h; cases h
      | some pr =>
        obtain ⟨d, fs1, ip1⟩ := pr
        simp only [hS] at h
        cases hB : bmapEntry fs1 d ((bn - NDIRECT - NINDIRECT) / NINDIRECT) with
        | none => simp only [hB] at h; exact Option.noConfusion h
        | some pr2 =>
          obtain ⟨l1, fs2⟩ := pr2
          simp only [hB] at h
          cases hC : bmapEntry fs2 l1 ((bn - NDIRECT - NINDIRECT) % NINDIRECT) with
          | none => simp only [hC] at h; exact Option.noConfusion h
          | some pr3 =>
            obtain ⟨a, fs3⟩ := pr3
            simp only [hC] at h
            have haddr : addr = a :=
              (congrArg (fun x => x.1) (Option.some.inj h)).symm
            have hfs3 : fs' = fs3 :=
              (congrArg (fun x => x.2.1) (Option.some.inj h)).symm
            have hip1 : ip' = ip1 :=
              (congrArg (fun x => x.2.2) (Option.some.inj h)).symm
            subst haddr hfs3 hip1
            have hj : (bn - NDIRECT - NINDIRECT) / NINDIRECT < NINDIRECT := by
              simp only [NINDIRECT, NDINDIRECT] at h3 ⊢
              omega
            have hk : (bn - NDIRECT - NINDIRECT) % NINDIRECT < NINDIRECT :=
              Nat.mod_lt _ (by simp [NINDIRECT])
            obtain ⟨hI1, hdnz, hraS, hfrS, hmonoS, hdfrS, hbitS, hzrS, hszS,
              htyS, hinS, hinoS, hs1S, hs2S, hcdS⟩ :=
              bmapSlot_spec fs ip DOUBLE_LINKED_INDIRECT_TABLE hInv
                (Or.inr (Or.inr rfl)) d fs1 ip' hS
            have hsrS : slotRole DOUBLE_LINKED_INDIRECT_TABLE = Role.double := by
              simp [slotRole, DOUBLE_LINKED_INDIRECT_TABLE,
                SINGLE_LINKED_INDIRECT_TABLE, NDIRECT]
            rw [hsrS] at hraS hfrS
            obtain ⟨hI2, hlnz, hraB, hfrB, hdfrB, hbitB, hzrB, hunB, hinoB,
              hs1B, hs2B, hcdB⟩ :=
              bmapEntry_spec fs1 ip' .double d
                ((bn - NDIRECT - NINDIRECT) / NINDIRECT) hI1 (Or.inr (Or.inl rfl))
                hraS hdnz hj l1 fs2 hB
            simp only [childRole] at hraB hfrB
            obtain ⟨hI3, hanz, hraC, hfrC, hdfrC, hbitC, hzrC, hunC, hinoC,
              hs1C, hs2C, hcdC⟩ :=
              bmapEntry_spec fs2 ip' (.dL1 ((bn - NDIRECT - NINDIRECT) / NINDIRECT))
                l1 ((bn - NDIRECT - NINDIRECT) % NINDIRECT) hI2
                (Or.inr (Or.inr ⟨_, rfl⟩)) hraB hlnz hk addr fs' hC
            simp only [childRole] at hraC hfrC
            have hdr : dataRole bn =
                .dLeaf ((bn - NDIRECT - NINDIRECT) / NINDIRECT)
                  ((bn - NDIRECT - NINDIRECT) % NINDIRECT) := by
              simp only [dataRole, if_neg h1,
                if_neg (show ¬bn < NDIRECT + NINDIRECT by
                  simp only [NDIRECT, NINDIRECT] at h2 ⊢; omega)]
            -- the double-root entry read leaves every data role unchanged
            have hmB : ∀ bn', roleAddr fs2 ip' (dataRole bn') =
                roleAddr fs1 ip' (dataRole bn') := fun bn' =>
              hfrB (dataRole bn') (dataRole_ne_dL1 bn' _)
            -- the inner table pointer recorded by stage B
            have hbr := hraB
            simp only [roleAddr] at hbr
            have hcnd : (bn - NDIRECT - NINDIRECT) / NINDIRECT < NINDIRECT ∧
                ip'.addrs DOUBLE_LINKED_INDIRECT_TABLE ≠ 0 := by
              by_contra hcc
              rw [if_neg hcc] at hbr
              exact hlnz hbr.symm
            rw [if_pos hcnd] at hbr
            have hmono2 : ∀ bn', fileAddr fs ip bn' ≠ 0 →
                fileAddr fs' ip' bn' = fileAddr fs ip bn' := by
              intro bn' hnz'
              have hm1 : fileAddr fs1 ip' bn' = fileAddr fs ip bn' :=
                hmonoS bn' hnz'
              have hm2 : fileAddr fs2 ip' bn' = fileAddr fs ip bn' := by
                rw [fileAddr_eq_roleAddr, hmB bn', ← fileAddr_eq_roleAddr, hm1]
              by_cases hex : fs2.data l1 ((bn - NDIRECT - NINDIRECT) % NINDIRECT) = 0
              · have hz0 : roleAddr fs2 ip'
                    (.dLeaf ((bn - NDIRECT - NINDIRECT) / NINDIRECT)
                      ((bn - NDIRECT - NINDIRECT) % NINDIRECT)) = 0 := by
                  simp only [roleAddr]
                  rw [if_pos ⟨hcnd.1, hk, hcnd.2, by rw [hbr]; exact hlnz⟩, hbr]
                  exact hex
                have hne : dataRole bn' ≠
                    Role.dLeaf ((bn - NDIRECT - NINDIRECT) / NINDIRECT)
                      ((bn - NDIRECT - NINDIRECT) % NINDIRECT) := by
                  intro he
                  have hz1 : fileAddr fs2 ip' bn' = 0 := by
                    rw [fileAddr_eq_roleAddr, he, hz0]
                  rw [hm2] at hz1
                  exact hnz' hz1
                rw [fileAddr_eq_roleAddr fs' ip' bn', hfrC _ hne,
                  ← fileAddr_eq_roleAddr, hm2]
              · rw [hunC hex]
                exact hm2
            refine ⟨hI3, ?_, hanz, hmono2, ?_, hszS, htyS, hinS,
              (hinoC.trans hinoB).trans hinoS, (hs1C.trans hs1B).trans hs1S,
              (hs2C.trans hs2B).trans hs2S, ?_, ?_⟩
            · rw [fileAddr_eq_roleAddr, hdr]
              exact hraC
            · intro bn' hnz'
              have hm1 : fileAddr fs1 ip' bn' = fileAddr fs ip bn' :=
                hmonoS bn' hnz'
              have hrr1 : roleAddr fs1 ip' (dataRole bn') = fileAddr fs ip bn' := by
                rw [← fileAddr_eq_roleAddr, hm1]
              have hrr2 : roleAddr fs2 ip' (dataRole bn') = fileAddr fs ip bn' := by
                rw [hmB bn', hrr1]
              have hrefS : fs1.data (fileAddr fs ip bn') =
                  fs.data (fileAddr fs ip bn') :=
                hdfrS _ hnz' ⟨dataRole bn', (fileAddr_eq_roleAddr fs ip bn').symm⟩
              have hne_d : fileAddr fs ip bn' ≠ d := by
                intro he
                have e1 : roleAddr fs1 ip' (dataRole bn') = d := by rw [hrr1, he]
                have e2 := hI1.inj (dataRole bn') .double
                  (by rw [e1]; exact hdnz) (by rw [hraS]; exact hdnz)
                  (e1.trans hraS.symm)
                exact dataRole_ne_double bn' e2
              have hrefB : fs2.data (fileAddr fs ip bn') =
                  fs.data (fileAddr fs ip bn') := by
                rw [hdfrB _ hnz' hne_d ⟨dataRole bn', hrr1⟩]
                exact hrefS
              have hne_l1 : fileAddr fs ip bn' ≠ l1 := by
                intro he
                have e1 : roleAddr fs2 ip' (dataRole bn') = l1 := by rw [hrr2, he]
                have e2 := hI2.inj (dataRole bn')
                  (.dL1 ((bn - NDIRECT - NINDIRECT) / NINDIRECT))
                  (by rw [e1]; exact hlnz) (by rw [hraB]; exact hlnz)
                  (e1.trans hraB.symm)
                exact dataRole_ne_dL1 bn' _ e2
              rw [hdfrC _ hnz' hne_l1 ⟨dataRole bn', hrr2⟩]
              exact hrefB
            · intro x hx hb
              refine hbitC x ?_ (hbitB x (by rw [hs1S]; exact hx) (hbitS x hx hb))
              rw [hs1B, hs1S]
              exact hx
            · rw [if_neg h1, if_neg (show ¬bn < NDIRECT + NINDIRECT by
                simp only [NDIRECT, NINDIRECT] at h2 ⊢; omega)]
              calc (freshBlocks fs fs').card
                  ≤ (freshBlocks fs fs2).card + (freshBlocks fs2 fs').card :=
                    freshBlocks_card_trans fs fs2 fs' (hs1B.trans hs1S)
                _ ≤ ((freshBlocks fs fs1).card + (freshBlocks fs1 fs2).card) +
                    (freshBlocks fs2 fs').card := by
                    have := freshBlocks_card_trans fs fs1 fs2 hs1S
                    omega
                _ ≤ 3 := by omega

/-- When the whole address chain for `bn` is already present, `bmap`
allocates nothing: it returns the recorded address and the state and
inode unchanged. -/
theorem bmap_pure (fs : FsState) (ip : Dinode) (bn : Nat)
    (hbn : bn < MAXFILE) (hnz : fileAddr fs ip bn ≠ 0) :
    bmap fs ip bn = some (fileAddr fs ip bn, fs, ip) := by
  by_cases h1 : bn < NDIRECT
  · have ha : fileAddr fs ip bn = ip.addrs bn := by
      simp only [fileAddr, if_pos h1]
    rw [ha] at hnz ⊢
    simp only [bmap, if_pos h1, bmapSlot]
    rw [if_neg hnz]
  · by_cases h2 : bn - NDIRECT < NINDIRECT
    · have h2' : bn < NDIRECT + NINDIRECT := by omega
      have hS0 : ip.addrs SINGLE_LINKED_INDIRECT_TABLE ≠ 0 := by
        intro he
        apply hnz
        simp only [fileAddr, if_neg h1, if_pos h2']
        rw [if_pos he]
      have hv : fileAddr fs ip bn =
          fs.data (ip.addrs SINGLE_LINKED_INDIRECT_TABLE) (bn - NDIRECT) := by
        simp only [fileAddr, if_neg h1, if_pos h2']
        rw [if_neg hS0]
      have hslot : bmapSlot fs ip SINGLE_LINKED_INDIRECT_TABLE =
          some (ip.addrs SINGLE_LINKED_INDIRECT_TABLE, fs, ip) := by
        simp only [bmapSlot]
        rw [if_neg hS0]
      have hentry : bmapEntry fs (ip.addrs SINGLE_LINKED_INDIRECT_TABLE)
          (bn - NDIRECT) =
          some (fs.data (ip.addrs SINGLE_LINKED_INDIRECT_TABLE) (bn - NDIRECT),
            fs) := by
        simp only [bmapEntry]
        rw [if_neg (by rw [← hv]; exact hnz)]
      simp only [bmap, if_neg h1, if_pos h2, hslot, hentry]
      rw [hv]
    · have h3 : bn - NDIRECT - NINDIRECT < NDINDIRECT := by
        simp only [MAXFILE, NDIRECT, NINDIRECT, NDINDIRECT] at hbn ⊢
        omega
      have h2' : ¬bn < NDIRECT + NINDIRECT := by omega
      have h3' : bn < MAXFILE := hbn
      have hD0 : ip.addrs DOUBLE_LINKED_INDIRECT_TABLE ≠ 0 := by
        intro he
        apply hnz
        simp only [fileAddr, if_neg h1, if_neg h2', if_pos h3']
        rw [if_pos he]
      have hL0 : fs.data (ip.addrs DOUBLE_LINKED_INDIRECT_TABLE)
          ((bn - NDIRECT - NINDIRECT) / NINDIRECT) ≠ 0 := by
        intro he
        apply hnz
        simp only [fileAddr, if_neg h1, if_neg h2', if_pos h3']
        rw [if_neg hD0, if_pos he]
      have hv : fileAddr fs ip bn =
          fs.data (fs.data (ip.addrs DOUBLE_LINKED_INDIRECT_TABLE)
            ((bn - NDIRECT - NINDIRECT) / NINDIRECT))
            ((bn - NDIRECT - NINDIRECT) % NINDIRECT) := by
        simp only [fileAddr, if_neg h1, if_neg h2', if_pos h3']
        rw [if_neg hD0, if_neg hL0]
      have hslot : bmapSlot fs ip DOUBLE_LINKED_INDIRECT_TABLE =
          some (ip.addrs DOUBLE_LINKED_INDIRECT_TABLE, fs, ip) := by
        simp only [bmapSlot]
        rw [if_neg hD0]
      have hentry1 : bmapEntry fs (ip.addrs DOUBLE_LINKED_INDIRECT_TABLE)
          ((bn - NDIRECT - NINDIRECT) / NINDIRECT) =
          some (fs.data (ip.addrs DOUBLE_LINKED_INDIRECT_TABLE)
            ((bn - NDIRECT - NINDIRECT) / NINDIRECT), fs) := by
        simp only [bmapEntry]
        rw [if_neg hL0]
      have hentry2 : bmapEntry fs
          (fs.data (ip.addrs DOUBLE_LINKED_INDIRECT_TABLE)
            ((bn - NDIRECT - NINDIRECT) / NINDIRECT))
          ((bn - NDIRECT - NINDIRECT) % NINDIRECT) =
          some (fs.data (fs.data (ip.addrs DOUBLE_LINKED_INDIRECT_TABLE)
            ((bn - NDIRECT - NINDIRECT) / NINDIRECT))
            ((bn - NDIRECT - NINDIRECT) % NINDIRECT), fs) := by
        simp only [bmapEntry]
        rw [if_neg (by rw [← hv]; exact hnz)]
      simp only [bmap, if_neg h1, if_neg h2, if_pos h3, hslot, hentry1, hentry2]
      rw [hv]


/-! ### Machinery for the `bmap` idempotence claim (C8) -/

/-- An inode with an all-zero address array satisfies the separation
invariant on any geometrically sound volume: it references nothing. -/
theorem Inv_empty_addrs (fs : FsState) (ip : Dinode)
    (hsb : 0 < fs.sbSize) (hgeom : dataStart fs ≤ fs.sbSize)
    (hmeta : ∀ b, b < dataStart fs → bitGet fs b = true)
    (hz : ∀ i, ip.addrs i = 0) : Inv fs ip := by
  have hra : ∀ r, roleAddr fs ip r = 0 := by
    intro r
    cases r with
    | direct i =>
      simp only [roleAddr]
      split
      · exact hz i
      · rfl
    | single => exact hz _
    | double => exact hz _
    | sEntry j =>
      simp only [roleAddr]
      rw [if_neg (fun hc => hc.2 (hz _))]
    | dL1 j =>
      simp only [roleAddr]
      rw [if_neg (fun hc => hc.2 (hz _))]
    | dLeaf j k =>
      simp only [roleAddr]
      rw [if_neg (fun hc => hc.2.2.1 (hz _))]
  exact ⟨hsb, hgeom, hmeta, fun r hr => absurd (hra r) hr,
    fun r1 r2 hr1 _ _ => absurd (hra r1) hr1⟩

/-- The empty example file satisfies the invariant on the tiny example
volume. -/
theorem Inv_exFs_exFile : Inv exFs exFile :=
  Inv_empty_addrs exFs exFile (by decide) (by decide) (by decide) (fun _ => rfl)

/-- On the tiny example volume the allocator hands out block 5. -/
theorem balloc_exFs_eval : balloc exFs = some (5, exFsA) := by
  have hscan : ballocScan exFs 0 0 = some 5 := by
    simp +decide [ballocScan.eq_def, exFs, BBLOCK, BPB, IPB]
  have houter : ballocOuter exFs 0 = some 5 := by
    rw [ballocOuter.eq_def]
    rw [if_pos (by decide : (0:Nat) < exFs.sbSize)]
    simp [hscan]
  simp only [balloc, houter]
  rfl

/-- On the tiny example volume, `bmap` of file block 0 of the empty file
allocates block 5 and records it in direct slot 0. -/
theorem bmap_exFs_eval : bmap exFs exFile 0 = some (5, exFsA, exFileA) := by
  simp +decide [bmap, bmapSlot, balloc_exFs_eval, exFile]
  rfl

/-- C8: `bmap` is idempotent per file-block index.  For every inode
satisfying the separation invariant and every in-range block index, a
successful `bmap` call allocates at most one new block per missing level
of its tier (one for the direct tier, two for the single-indirect tier,
three for the double-indirect tier) and stores the resulting address;
calling `bmap` again with the same index returns the very same block
address and leaves the state and the inode exactly unchanged — in
particular it performs no further allocation. -/
theorem bmap_idempotent (fs : FsState) (ip : Dinode) (bn : Nat)
    (hInv : Inv fs ip) (hbn : bn < MAXFILE)
    (addr : Nat) (fs' : FsState) (ip' : Dinode)
    (h : bmap fs ip bn = some (addr, fs', ip')) :
    bmap fs' ip' bn = some (addr, fs', ip') ∧
    (freshBlocks fs fs').card ≤
      (if bn < NDIRECT then 1 else if bn < NDIRECT + NINDIRECT then 2 else 3) := by
  have hp := bmap_spec fs ip bn hInv hbn addr fs' ip' h
  refine ⟨?_, hp.newBound⟩
  have h2 := bmap_pure fs' ip' bn hbn (by rw [hp.addrEq]; exact hp.addrNz)
  rw [hp.addrEq] at h2
  exact h2

/-- Witness for C8: on the tiny example volume, `bmap` of block 0 of the
empty file allocates block 5, and the repeated call returns block 5 with
the state unchanged, having allocated exactly one block. -/
theorem bmap_idempotent_witness :
    Inv exFs exFile ∧ 0 < MAXFILE ∧
    (bmap exFsA exFileA 0 = some (5, exFsA, exFileA) ∧
      (freshBlocks exFs exFsA).card ≤
        (if 0 < NDIRECT then 1 else if 0 < NDIRECT + NINDIRECT then 2 else 3)) :=
  ⟨Inv_exFs_exFile, by decide,
    bmap_idempotent exFs exFile 0 Inv_exFs_exFile (by decide) 5 exFsA exFileA
      bmap_exFs_eval⟩

/-- Mapping over an index range splits at any cut point. -/
theorem range_map_split {α : Type} (f : Nat → α) (a b : Nat) :
    (List.range (a + b)).map f =
      (List.range a).map f ++ (List.range b).map (fun j => f (a + j)) := by
  rw [List.range_add, List.map_append, List.map_map]
  rfl

/-- The read loop is pure over a fully mapped range: it returns exactly
the bytes of the chain-addressed blocks and leaves the state and the
inode unchanged. -/
theorem readiLoop_pure (fs : FsState) (ip : Dinode) (n : Nat) :
    ∀ k off tot acc, n - tot = k →
      (∀ j, j < n - tot → fileAddr fs ip ((off + j) / BSIZE) ≠ 0) →
      off + (n - tot) ≤ MAXFILE * BSIZE →
      readiLoop fs ip off tot n acc =
        some (acc ++ (List.range (n - tot)).map
          (fun j => fs.data (fileAddr fs ip ((off + j) / BSIZE))
            ((off + j) % BSIZE)), fs, ip) := by
  intro k
  induction k using Nat.strong_induction_on with
  | _ k ih =>
    intro off tot acc hk hmap hbound
    rw [readiLoop.eq_def]
    by_cases hlt : tot < n
    · rw [if_pos hlt]
      have hnz : fileAddr fs ip (off / BSIZE) ≠ 0 := by
        have h0 := hmap 0 (by omega)
        simpa using h0
      have hb : off / BSIZE < MAXFILE := by
        rw [Nat.div_lt_iff_lt_mul (by simp [BSIZE])]
        simp only [BSIZE, MAXFILE, NDIRECT, NINDIRECT, NDINDIRECT] at *
        omega
      simp only [bmap_pure fs ip (off / BSIZE) hb hnz]
      have hmodlt : off % BSIZE < BSIZE := Nat.mod_lt off (by simp [BSIZE])
      have hmpos : 0 < min (n - tot) (BSIZE - off % BSIZE) :=
        lt_min (by omega) (by omega)
      have hmle : min (n - tot) (BSIZE - off % BSIZE) ≤ n - tot := min_le_left _ _
      have hmap' : ∀ j, j < n - (tot + min (n - tot) (BSIZE - off % BSIZE)) →
          fileAddr fs ip ((off + min (n - tot) (BSIZE - off % BSIZE) + j) /
            BSIZE) ≠ 0 := by
        intro j hj
        have h0 := hmap (min (n - tot) (BSIZE - off % BSIZE) + j) (by omega)
        rw [show off + (min (n - tot) (BSIZE - off % BSIZE) + j) =
          off + min (n - tot) (BSIZE - off % BSIZE) + j by omega] at h0
        exact h0
      have hrec := ih (n - (tot + min (n - tot) (BSIZE - off % BSIZE)))
        (by omega)
        (off + min (n - tot) (BSIZE - off % BSIZE))
        (tot + min (n - tot) (BSIZE - off % BSIZE))
        (acc ++ (List.range (min (n - tot) (BSIZE - off % BSIZE))).map
          (fun i => fs.data (fileAddr fs ip (off / BSIZE)) (off % BSIZE + i)))
        rfl hmap' (by omega)
      rw [hrec]
      have key : ∀ m r, m + r = n - tot → m ≤ BSIZE - off % BSIZE →
          (List.range (n - tot)).map
            (fun j => fs.data (fileAddr fs ip ((off + j) / BSIZE))
              ((off + j) % BSIZE)) =
          (List.range m).map
            (fun i => fs.data (fileAddr fs ip (off / BSIZE)) (off % BSIZE + i)) ++
          (List.range r).map
            (fun j => fs.data (fileAddr fs ip ((off + m + j) / BSIZE))
              ((off + m + j) % BSIZE)) := by
        intro m r hmr hmB
        rw [← hmr, range_map_split]
        congr 1
        · apply List.map_congr_left
          intro i hi
          rw [List.mem_range] at hi
          have h1 : (off + i) / BSIZE = off / BSIZE := by
            simp only [BSIZE] at hmB ⊢
            omega
          have h2 : (off + i) % BSIZE = off % BSIZE + i := by
            simp only [BSIZE] at hmB ⊢
            omega
          rw [h1, h2]
        · apply List.map_congr_left
          intro j hj
          show fs.data (fileAddr fs ip ((off + (m + j)) / BSIZE))
              ((off + (m + j)) % BSIZE) =
            fs.data (fileAddr fs ip ((off + m + j) / BSIZE)) ((off + m + j) % BSIZE)
          rw [show off + (m + j) = off + m + j from by omega]
      rw [key (min (n - tot) (BSIZE - off % BSIZE))
        (n - (tot + min (n - tot) (BSIZE - off % BSIZE))) (by omega)
        (min_le_right _ _), List.append_assoc]
    · rw [if_neg hlt]
      rw [show n - tot = 0 by omega]
      simp

/-- `readi` is pure over a fully mapped in-bounds range of an ordinary
inode: it returns exactly the requested bytes, read through the address
chain, and leaves the state and the inode unchanged. -/
theorem readi_pure (fs : FsState) (ip : Dinode) (off n : Nat)
    (hty : ip.type ≠ T_DEV)
    (hoffsz : off + n ≤ ip.size) (hszU : ip.size < U32)
    (hsz : ip.size ≤ MAXFILE * BSIZE)
    (hmap : ∀ j, j < n → fileAddr fs ip ((off + j) / BSIZE) ≠ 0) :
    readi fs ip off n = some ((n : Int),
      (List.range n).map
        (fun j => fs.data (fileAddr fs ip ((off + j) / BSIZE)) ((off + j) % BSIZE)),
      fs, ip) := by
  have hu : (off + n) % U32 = off + n := Nat.mod_eq_of_lt (by omega)
  have hloop := readiLoop_pure fs ip n (n - 0) off 0 [] rfl
    (by simpa using hmap) (by omega)
  simp only [Nat.sub_zero, List.nil_append] at hloop
  unfold readi
  rw [if_neg hty, if_neg (show ¬(off > ip.size ∨ (off + n) % U32 < off) by
    rw [hu]; omega), hu, if_neg (show ¬(off + n > ip.size) by omega)]
  simp only [hloop]

/-- Past all three tiers the address chain reads 0. -/
theorem fileAddr_high (fs : FsState) (ip : Dinode) (bn : Nat)
    (h : MAXFILE ≤ bn) : fileAddr fs ip bn = 0 := by
  have h1 : ¬bn < NDIRECT := by
    simp only [MAXFILE, NDIRECT, NINDIRECT, NDINDIRECT] at h ⊢
    omega
  have h2 : ¬bn < NDIRECT + NINDIRECT := by
    simp only [MAXFILE, NDIRECT, NINDIRECT, NDINDIRECT] at h ⊢
    omega
  simp only [fileAddr, if_neg h1, if_neg h2, if_neg (by omega : ¬bn < MAXFILE)]

/-- The write loop under the separation invariant: the invariant is
maintained, the inode's fields and the volume geometry are untouched,
previously mapped file blocks keep their addresses, every written
position is mapped and holds its source byte afterwards, and bytes of
previously mapped blocks outside the written window are untouched. -/
theorem writeiLoop_spec (src : Nat → Nat) (n : Nat) :
    ∀ k fs ip off tot, n - tot = k → Inv fs ip →
      off + (n - tot) ≤ MAXFILE * BSIZE →
      ∀ fs' ip', writeiLoop fs ip src off tot n = some (fs', ip') →
      Inv fs' ip' ∧
      ip'.size = ip.size ∧ ip'.type = ip.type ∧ ip'.inum = ip.inum ∧
      fs'.inodes = fs.inodes ∧ fs'.sbSize = fs.sbSize ∧
      fs'.sbNinodes = fs.sbNinodes ∧
      (∀ bn', fileAddr fs ip bn' ≠ 0 → fileAddr fs' ip' bn' = fileAddr fs ip bn') ∧
      (∀ j, j < n - tot → fileAddr fs' ip' ((off + j) / BSIZE) ≠ 0 ∧
        fs'.data (fileAddr fs' ip' ((off + j) / BSIZE)) ((off + j) % BSIZE) =
          src (tot + j)) ∧
      (∀ bn', fileAddr fs ip bn' ≠ 0 → ∀ i, i < BSIZE →
        (∀ j, j < n - tot → ¬(bn' = (off + j) / BSIZE ∧ i = (off + j) % BSIZE)) →
        fs'.data (fileAddr fs ip bn') i = fs.data (fileAddr fs ip bn') i) := by
  intro k
  induction k using Nat.strong_induction_on with
  | _ k ih =>
    intro fs ip off tot hk hInv hbound fs' ip' h
    rw [writeiLoop.eq_def] at h
    by_cases hlt : tot < n
    · rw [if_pos hlt] at h
      cases hbm : bmap fs ip (off / BSIZE) with
      | none => rw [hbm] at h; cases h
      | some pr =>
        obtain ⟨addr, fs1, ip1⟩ := pr
        simp only [hbm] at h
        have hb : off / BSIZE < MAXFILE := by
          rw [Nat.div_lt_iff_lt_mul (by simp [BSIZE])]
          simp only [BSIZE, MAXFILE, NDIRECT, NINDIRECT, NDINDIRECT] at *
          omega
        have hpost := bmap_spec fs ip (off / BSIZE) hInv hb addr fs1 ip1 hbm
        set m := min (n - tot) (BSIZE - off % BSIZE) with hm
        set fs2 := blockWriteRange fs1 addr (off % BSIZE) src tot m with hfs2
        have hmodlt : off % BSIZE < BSIZE := Nat.mod_lt off (by simp [BSIZE])
        have hmle : m ≤ n - tot := by rw [hm]; exact min_le_left _ _
        have hmB : m ≤ BSIZE - off % BSIZE := by rw [hm]; exact min_le_right _ _
        have hmpos : 0 < m := by
          rw [hm]
          exact lt_min (by omega) (by omega)
        obtain ⟨hIw, hfw, hbitw⟩ := Inv_data_write fs1 ip1 (off / BSIZE) addr
          hpost.inv hpost.addrEq hpost.addrNz (off % BSIZE) src tot m
        rw [← hfs2] at hIw hfw hbitw
        obtain ⟨hI', hsz', hty', hin', hino', hs1', hs2', hmono', hwrite',
          hframe'⟩ := ih (n - (tot + m)) (by omega) fs2 ip1 (off + m) (tot + m)
          rfl hIw (by omega) fs' ip' h
        -- the chunk block's address in every later state
        have hfw2 : fileAddr fs2 ip1 (off / BSIZE) = addr := by
          rw [hfw]
          exact hpost.addrEq
        have hmonoc : ∀ bn', fileAddr fs ip bn' ≠ 0 →
            fileAddr fs' ip' bn' = fileAddr fs ip bn' := by
          intro bn' hnz
          have h2 : fileAddr fs2 ip1 bn' = fileAddr fs ip bn' := by
            rw [hfw bn', hpost.mono bn' hnz]
          rw [hmono' bn' (by rw [h2]; exact hnz), h2]
        -- byte-level views of the chunk write
        have hbw_in : ∀ i', off % BSIZE ≤ i' → i' < off % BSIZE + m →
            fs2.data addr i' = src (tot + (i' - off % BSIZE)) := by
          intro i' h1 h2
          rw [hfs2]
          show (if addr = addr ∧ off % BSIZE ≤ i' ∧ i' < off % BSIZE + m
            then src (tot + (i' - off % BSIZE)) else fs1.data addr i') = _
          rw [if_pos ⟨rfl, h1, h2⟩]
        have hbw_out : ∀ b' i', ¬(b' = addr ∧ off % BSIZE ≤ i' ∧
            i' < off % BSIZE + m) → fs2.data b' i' = fs1.data b' i' := by
          intro b' i' hnc
          rw [hfs2]
          show (if b' = addr ∧ off % BSIZE ≤ i' ∧ i' < off % BSIZE + m
            then src (tot + (i' - off % BSIZE)) else fs1.data b' i') = _
          rw [if_neg hnc]
        refine ⟨hI', hsz'.trans hpost.szEq, hty'.trans hpost.tyEq,
          hin'.trans hpost.inumEq, hino'.trans hpost.inodesEq,
          hs1'.trans hpost.sbSzEq, hs2'.trans hpost.sbNiEq, hmonoc, ?_, ?_⟩
        · -- every written position holds its source byte
          intro j hj
          by_cases hjm : j < m
          · have hjB : j < BSIZE - off % BSIZE := by omega
            have hdiv : (off + j) / BSIZE = off / BSIZE := by
              simp only [BSIZE] at hjB ⊢
              omega
            have hmod : (off + j) % BSIZE = off % BSIZE + j := by
              simp only [BSIZE] at hjB ⊢
              omega
            have haddr' : fileAddr fs' ip' (off / BSIZE) = addr := by
              rw [hmono' (off / BSIZE) (by rw [hfw2]; exact hpost.addrNz), hfw2]
            refine ⟨by rw [hdiv, haddr']; exact hpost.addrNz, ?_⟩
            rw [hdiv, hmod, haddr']
            have hkeep : fs'.data (fileAddr fs2 ip1 (off / BSIZE))
                (off % BSIZE + j) =
                fs2.data (fileAddr fs2 ip1 (off / BSIZE)) (off % BSIZE + j) := by
              apply hframe' (off / BSIZE) (by rw [hfw2]; exact hpost.addrNz)
                (off % BSIZE + j) (by omega)
              intro j' hj' hc
              obtain ⟨hc1, hc2⟩ := hc
              simp only [BSIZE] at hc1 hc2
              omega
            rw [hfw2] at hkeep
            rw [hkeep, hbw_in (off % BSIZE + j) (by omega) (by omega),
              show off % BSIZE + j - off % BSIZE = j by omega]
          · have hrec := hwrite' (j - m) (by omega)
            rw [show off + m + (j - m) = off + j by omega,
              show tot + m + (j - m) = tot + j by omega] at hrec
            exact hrec
        · -- frame outside the written window
          intro bn' hnz i hi hmiss
          have hm1 : fileAddr fs1 ip1 bn' = fileAddr fs ip bn' :=
            hpost.mono bn' hnz
          have hd1 : fs1.data (fileAddr fs ip bn') =
              fs.data (fileAddr fs ip bn') := hpost.dataPres bn' hnz
          have hf2 : fileAddr fs2 ip1 bn' = fileAddr fs ip bn' := by
            rw [hfw bn', hm1]
          have hd2 : fs2.data (fileAddr fs ip bn') i =
              fs1.data (fileAddr fs ip bn') i := by
            by_cases hba : fileAddr fs ip bn' = addr
            · have hbn'lt : bn' < MAXFILE := by
                by_contra hc
                push_neg at hc
                exact hnz (fileAddr_high fs ip bn' hc)
              have hbneq : bn' = off / BSIZE := by
                by_contra hne
                have e1 : fileAddr fs1 ip1 bn' = addr := by rw [hm1, hba]
                have e2 : fileAddr fs1 ip1 (off / BSIZE) = addr := hpost.addrEq
                have e3 : dataRole bn' = dataRole (off / BSIZE) := by
                  apply hpost.inv.inj
                  · rw [← fileAddr_eq_roleAddr, e1]
                    exact hpost.addrNz
                  · rw [← fileAddr_eq_roleAddr, e2]
                    exact hpost.addrNz
                  · rw [← fileAddr_eq_roleAddr, ← fileAddr_eq_roleAddr, e1, e2]
                exact dataRole_inj bn' (off / BSIZE) hbn'lt hb hne e3
              rw [hba]
              apply hbw_out
              intro hc
              obtain ⟨-, hc2, hc3⟩ := hc
              refine hmiss (i - off % BSIZE) (by omega) ⟨?_, ?_⟩
              · rw [hbneq]
                simp only [BSIZE] at hc2 hc3 hmB ⊢
                omega
              · simp only [BSIZE] at hc2 hc3 hmB ⊢
                omega
            · exact hbw_out _ _ (fun hc => hba hc.1)
          have hkeep : fs'.data (fileAddr fs2 ip1 bn') i =
              fs2.data (fileAddr fs2 ip1 bn') i := by
            apply hframe' bn' (by rw [hf2]; exact hnz) i hi
            intro j' hj'
            have h0 := hmiss (m + j') (by omega)
            rw [show off + (m + j') = off + m + j' from by omega] at h0
            exact h0
          rw [hf2] at hkeep
          rw [hkeep, hd2, congrFun hd1 i]
    · rw [if_neg hlt] at h
      have hfs : fs' = fs := (congrArg Prod.fst (Option.some.inj h)).symm
      have hip : ip' = ip := (congrArg Prod.snd (Option.some.inj h)).symm
      subst hfs hip
      refine ⟨hInv, rfl, rfl, rfl, rfl, rfl, rfl, fun bn' _ => rfl, ?_,
        fun bn' _ i _ _ => rfl⟩
      intro j hj
      exact absurd hj (by omega)

/-- C4 (corrected): for an ordinary (non-device) inode satisfying the
separation invariant, writing `n > 0` bytes with `writei` starting at an
offset AT MOST the current size (the entry guard `off > ip->size`
rejects offsets strictly beyond it) and reaching past it succeeds with
result `n`, extends the inode's size to `off + n`, and a subsequent
`readi` of the full written range returns exactly the bytes that were
written, with no further state change. -/
theorem writei_append_roundtrip (fs : FsState) (ip : Dinode) (src : Nat → Nat)
    (off n : Nat) (hInv : Inv fs ip) (hty : ip.type ≠ T_DEV)
    (hoff : off ≤ ip.size) (hgrow : ip.size ≤ off + n) (hn : 0 < n)
    (hmax : off + n ≤ MAXFILE * BSIZE) (hu : off + n < U32)
    (hok : writei fs ip src off n ≠ none) :
    ∃ fs' ip', writei fs ip src off n = some ((n : Int), fs', ip') ∧
      ip'.size = off + n ∧
      readi fs' ip' off n =
        some ((n : Int), (List.range n).map src, fs', ip') := by
  have humod : (off + n) % U32 = off + n := Nat.mod_eq_of_lt hu
  unfold writei at hok ⊢
  rw [if_neg hty,
    if_neg (show ¬(off > ip.size ∨ (off + n) % U32 < off) by rw [humod]; omega),
    if_neg (show ¬((off + n) % U32 > MAXFILE * BSIZE) by rw [humod]; omega)]
    at hok ⊢
  cases hw : writeiLoop fs ip src off 0 n with
  | none => rw [hw] at hok; exact absurd rfl hok
  | some pr =>
    obtain ⟨fs1, ip1⟩ := pr
    simp only [hw]
    obtain ⟨hI1, hsz1, hty1, hin1, hino1, hs11, hs21, hmono1, hwrite1,
      hframe1⟩ := writeiLoop_spec src n (n - 0) fs ip off 0 rfl hInv
        (by omega) fs1 ip1 hw
    simp only [Nat.sub_zero] at hwrite1 hframe1
    by_cases hup : 0 < n ∧ ip1.size < off + n
    · rw [if_pos hup]
      refine ⟨iupdate fs1 { ip1 with size := off + n },
        { ip1 with size := off + n }, rfl, rfl, ?_⟩
      have hfa : fileAddr (iupdate fs1 { ip1 with size := off + n })
          { ip1 with size := off + n } = fileAddr fs1 ip1 := rfl
      rw [readi_pure (iupdate fs1 { ip1 with size := off + n })
        { ip1 with size := off + n } off n
        (show ip1.type ≠ T_DEV by rw [hty1]; exact hty)
        (le_refl (off + n)) hu hmax
        (fun j hj => by rw [hfa]; exact (hwrite1 j hj).1)]
      have hbytes : (List.range n).map
          (fun j => (iupdate fs1 { ip1 with size := off + n }).data
            (fileAddr (iupdate fs1 { ip1 with size := off + n })
              { ip1 with size := off + n } ((off + j) / BSIZE))
            ((off + j) % BSIZE)) = (List.range n).map src := by
        apply List.map_congr_left
        intro j hj
        rw [List.mem_range] at hj
        have h2 := (hwrite1 j hj).2
        rw [Nat.zero_add] at h2
        exact h2
      rw [hbytes]
    · rw [if_neg hup]
      push_neg at hup
      have hsz2 : ip1.size = off + n := by
        have := hup hn
        omega
      refine ⟨fs1, ip1, rfl, hsz2, ?_⟩
      rw [readi_pure fs1 ip1 off n
        (show ip1.type ≠ T_DEV by rw [hty1]; exact hty)
        (by rw [hsz2]) (by rw [hsz2]; exact hu) (by rw [hsz2]; exact hmax)
        (fun j hj => (hwrite1 j hj).1)]
      have hbytes : (List.range n).map
          (fun j => fs1.data (fileAddr fs1 ip1 ((off + j) / BSIZE))
            ((off + j) % BSIZE)) = (List.range n).map src := by
        apply List.map_congr_left
        intro j hj
        rw [List.mem_range] at hj
        have h2 := (hwrite1 j hj).2
        rw [Nat.zero_add] at h2
        exact h2
      rw [hbytes]

/-- C4 counterexample: writing 1 byte at offset 1, strictly beyond the
empty file's size 0, does not succeed: `writei` fails with -1 and leaves
the volume and the inode unchanged. -/
theorem writei_beyond_size_counterexample :
    exFile.size < 1 ∧ writei exFs exFile exSrc 1 1 = some (-1, exFs, exFile) :=
  ⟨by decide, rfl⟩

/-- On the tiny example volume, the one-byte write loop allocates block 5
and writes the first source byte at its offset 0. -/
theorem writeiLoop_exFs_eval :
    writeiLoop exFs exFile exSrc 0 0 1 = some (exFsW, exFileA) := by
  rw [writeiLoop.eq_def]
  rw [if_pos (by decide : (0 : Nat) < 1)]
  simp only [Nat.zero_div, bmap_exFs_eval]
  rw [writeiLoop.eq_def]
  simp +decide [exFsW, BSIZE]

/-- On the tiny example volume, the one-byte append succeeds and writes
the grown inode back. -/
theorem writei_exFs_eval :
    writei exFs exFile exSrc 0 1 = some (1, exFsW2, exFileW) := by
  unfold writei
  rw [if_neg (by decide), if_neg (by decide), if_neg (by decide)]
  simp only [writeiLoop_exFs_eval]
  rw [if_pos (by constructor <;> decide)]
  rfl

/-- Witness for C4: the one-byte append to the empty file on the tiny
example volume returns 1, grows the size to 1, and reading the byte back
returns exactly the written byte. -/
theorem writei_append_roundtrip_witness :
    (Inv exFs exFile ∧ exFile.type ≠ T_DEV ∧ 0 ≤ exFile.size ∧
      exFile.size ≤ 0 + 1 ∧ 0 < 1 ∧ 0 + 1 ≤ MAXFILE * BSIZE ∧ 0 + 1 < U32 ∧
      writei exFs exFile exSrc 0 1 ≠ none) ∧
    (∃ fs' ip', writei exFs exFile exSrc 0 1 = some (((1 : Nat) : Int), fs', ip') ∧
      ip'.size = 0 + 1 ∧
      readi fs' ip' 0 1 =
        some (((1 : Nat) : Int), (List.range 1).map exSrc, fs', ip')) :=
  ⟨⟨Inv_exFs_exFile, by decide, by decide, by decide, by decide, by decide,
      by decide, by rw [writei_exFs_eval]; exact fun hc => Option.noConfusion hc⟩,
    writei_append_roundtrip exFs exFile exSrc 0 1 Inv_exFs_exFile (by decide)
      (by decide) (by decide) (by decide) (by decide) (by decide)
      (by rw [writei_exFs_eval]; exact fun hc => Option.noConfusion hc)⟩

/-- In a hole-free directory whose size is a whole number of entries,
the `dirlookup` scan started at any aligned offset at or before a
matching entry finds some matching entry, without changing the state or
the directory inode. -/
theorem dirlookupLoop_finds (fs : FsState) (dp : Dinode) (name : List Nat)
    (hty2 : dp.type ≠ T_DEV)
    (hdvd : direntSize ∣ dp.size) (hszU : dp.size < U32)
    (hsz : dp.size ≤ MAXFILE * BSIZE)
    (hmap : ∀ bn, bn * BSIZE < dp.size → fileAddr fs dp bn ≠ 0)
    (off0 : Nat) (hoff0 : off0 < dp.size) (hdvd0 : direntSize ∣ off0)
    (hne : direntInum (entryBytesAt fs dp off0) ≠ 0)
    (hmatch : namecmp name (direntName (entryBytesAt fs dp off0)) = 0) :
    ∀ k off, off0 - off = k → off ≤ off0 → direntSize ∣ off →
      ∃ v, dirlookupLoop fs dp name off = some (some v, fs, dp) := by
  have hread : ∀ off, off + direntSize ≤ dp.size →
      readi fs dp off direntSize =
        some ((direntSize : Int), entryBytesAt fs dp off, fs, dp) := by
    intro off hoff
    rw [readi_pure fs dp off direntSize hty2 hoff hszU hsz
      (fun j hj => hmap ((off + j) / BSIZE) (by
        simp only [BSIZE, direntSize] at hoff hj ⊢
        omega))]
    rfl
  intro k
  induction k using Nat.strong_induction_on with
  | _ k ih =>
    intro off hk hle hdv
    have hofflt : off < dp.size := lt_of_le_of_lt hle hoff0
    have hoff16 : off + direntSize ≤ dp.size := by
      obtain ⟨a, ha⟩ := hdv
      obtain ⟨b, hb⟩ := hdvd
      simp only [direntSize] at *
      omega
    rw [dirlookupLoop.eq_def, if_pos hofflt]
    simp only [hread off hoff16]
    rw [if_neg (by simp : ¬((direntSize : Int) ≠ (direntSize : Int)))]
    by_cases hz : direntInum (entryBytesAt fs dp off) = 0
    · rw [if_pos hz]
      have hneq : off ≠ off0 := fun he => hne (he ▸ hz)
      have hstep : off + direntSize ≤ off0 := by
        obtain ⟨a, ha⟩ := hdv
        obtain ⟨c, hc⟩ := hdvd0
        simp only [direntSize] at *
        omega
      exact ih (off0 - (off + direntSize))
        (by simp only [direntSize] at *; omega) (off + direntSize) rfl hstep
        (Nat.dvd_add hdv dvd_rfl)
    · rw [if_neg hz]
      by_cases hm : namecmp name (direntName (entryBytesAt fs dp off)) = 0
      · rw [if_pos hm]
        exact ⟨(direntInum (entryBytesAt fs dp off), off), rfl⟩
      · rw [if_neg hm]
        have hneq : off ≠ off0 := fun he => hm (he ▸ hmatch)
        have hstep : off + direntSize ≤ off0 := by
          obtain ⟨a, ha⟩ := hdv
          obtain ⟨c, hc⟩ := hdvd0
          simp only [direntSize] at *
          omega
        exact ih (off0 - (off + direntSize))
          (by simp only [direntSize] at *; omega) (off + direntSize) rfl hstep
          (Nat.dvd_add hdv dvd_rfl)

/-- C7: `dirlink` on a directory that already contains an entry with the
given name fails with -1 and leaves the volume and the directory inode
exactly unchanged (no entry is added or overwritten).  The directory is
assumed well formed: its size is a whole number of entries within the
file-size limits and its content blocks are all mapped. -/
theorem dirlink_duplicate_rejected (fs : FsState) (dp : Dinode)
    (name : List Nat) (inum : Nat) (hty : dp.type = T_DIR)
    (hdvd : direntSize ∣ dp.size) (hszU : dp.size < U32)
    (hsz : dp.size ≤ MAXFILE * BSIZE)
    (hmap : ∀ bn, bn * BSIZE < dp.size → fileAddr fs dp bn ≠ 0)
    (off0 : Nat) (hoff0 : off0 < dp.size) (hdvd0 : direntSize ∣ off0)
    (hne : direntInum (entryBytesAt fs dp off0) ≠ 0)
    (hmatch : namecmp name (direntName (entryBytesAt fs dp off0)) = 0) :
    dirlink fs dp name inum = some (-1, fs, dp) := by
  have hty2 : dp.type ≠ T_DEV := by
    rw [hty]
    decide
  obtain ⟨v, hloop⟩ := dirlookupLoop_finds fs dp name hty2 hdvd hszU hsz hmap
    off0 hoff0 hdvd0 hne hmatch (off0 - 0) 0 rfl (by omega) (dvd_zero _)
  unfold dirlink dirlookup
  rw [if_neg (show ¬(dp.type ≠ T_DIR) by rw [hty]; decide)]
  simp only [hloop]

/-- Witness for C7: adding name `"x"` to the one-entry example directory
that already holds an entry `"x"` fails with -1 and leaves the volume
and the directory unchanged. -/
theorem dirlink_duplicate_rejected_witness :
    (exDir.type = T_DIR ∧ direntSize ∣ exDir.size ∧ exDir.size < U32 ∧
      exDir.size ≤ MAXFILE * BSIZE ∧
      (∀ bn, bn * BSIZE < exDir.size → fileAddr exFsDir exDir bn ≠ 0) ∧
      0 < exDir.size ∧ direntSize ∣ 0 ∧
      direntInum (entryBytesAt exFsDir exDir 0) ≠ 0 ∧
      namecmp [120] (direntName (entryBytesAt exFsDir exDir 0)) = 0) ∧
    dirlink exFsDir exDir [120] 7 = some (-1, exFsDir, exDir) := by
  have hmap : ∀ bn, bn * BSIZE < exDir.size → fileAddr exFsDir exDir bn ≠ 0 := by
    intro bn hbn
    have hsz : exDir.size = 16 := rfl
    have hB : BSIZE = 512 := rfl
    rw [hsz, hB] at hbn
    have hbn0 : bn = 0 := by omega
    subst hbn0
    decide
  refine ⟨⟨by decide, by decide, by decide, by decide, hmap, by decide,
    by decide, by decide, by decide⟩, ?_⟩
  exact dirlink_duplicate_rejected exFsDir exDir [120] 7 (by decide) (by decide)
    (by decide) (by decide) hmap 0 (by decide) (by decide) (by decide) (by decide)

/-! ### `writei` error conditions (C5) -/

/-- C5 (confirmed): for an ordinary (non-device) inode, `writei` returns
-1 exactly when the start offset exceeds the current size, or `off + n`
wraps in 32-bit unsigned arithmetic, or the end offset would exceed
`MAXFILE * BSIZE`; and whenever it returns -1, the state and the inode
are unchanged (no block is written, the size is untouched). -/
theorem writei_fail_iff (fs : FsState) (ip : Dinode) (src : Nat → Nat)
    (off n : Nat) (hdev : ip.type ≠ T_DEV) (hoff : off < U32) (hn : n < U32) :
    (writei fs ip src off n = some (-1, fs, ip) ↔
      ip.size < off ∨ U32 ≤ off + n ∨ MAXFILE * BSIZE < off + n) ∧
    (∀ r fs' ip', writei fs ip src off n = some (r, fs', ip') → r = -1 →
      fs' = fs ∧ ip' = ip) := by
  have hwrap : ((off + n) % U32 < off) ↔ U32 ≤ off + n := by
    unfold U32 at *
    omega
  have hmax : ¬ U32 ≤ off + n →
      (MAXFILE * BSIZE < (off + n) % U32 ↔ MAXFILE * BSIZE < off + n) := by
    intro h
    unfold U32 at *
    omega
  unfold writei
  rw [if_neg hdev]
  by_cases h1 : off > ip.size ∨ (off + n) % U32 < off
  · rw [if_pos h1]
    constructor
    · constructor
      · intro _
        rcases h1 with h1 | h1
        · exact Or.inl h1
        · exact Or.inr (Or.inl (hwrap.mp h1))
      · intro _; rfl
    · intro r fs' ip' hr _
      have h4 : fs = fs' := congrArg (fun x => x.2.1) (Option.some.inj hr)
      have h5 : ip = ip' := congrArg (fun x => x.2.2) (Option.some.inj hr)
      exact ⟨h4.symm, h5.symm⟩
  · rw [if_neg h1]
    push_neg at h1
    have hnw : ¬ U32 ≤ off + n := fun hc => absurd (hwrap.mpr hc) (by omega)
    by_cases h2 : (off + n) % U32 > MAXFILE * BSIZE
    · rw [if_pos h2]
      constructor
      · constructor
        · intro _
          exact Or.inr (Or.inr ((hmax hnw).mp h2))
        · intro _; rfl
      · intro r fs' ip' hr _
        have h4 : fs = fs' := congrArg (fun x => x.2.1) (Option.some.inj hr)
        have h5 : ip = ip' := congrArg (fun x => x.2.2) (Option.some.inj hr)
        exact ⟨h4.symm, h5.symm⟩
    · rw [if_neg h2]
      constructor
      · constructor
        · intro hc
          exfalso
          rcases hlp : writeiLoop fs ip src off 0 n with _ | ⟨fs1, ip1⟩
          · rw [hlp] at hc
            cases hc
          · simp only [hlp] at hc
            split at hc <;>
              · have h3 : (n : Int) = -1 := congrArg Prod.fst (Option.some.inj hc)
                omega
        · intro hcond
          exfalso
          rcases hcond with hc | hc | hc
          · omega
          · exact hnw hc
          · exact absurd ((hmax hnw).mpr hc) h2
      · intro r fs' ip' hr hrneg
        exfalso
        rcases hlp : writeiLoop fs ip src off 0 n with _ | ⟨fs1, ip1⟩
        · rw [hlp] at hr
          cases hr
        · simp only [hlp] at hr
          split at hr <;>
            · have h3 : (n : Int) = r := congrArg Prod.fst (Option.some.inj hr)
              rw [hrneg] at h3
              omega

/-- Witness for `writei_fail_iff`: the empty ordinary file, written at
offset 1 (past its size 0), on the tiny volume. -/
theorem writei_fail_iff_witness :
    (exFile.type ≠ T_DEV ∧ (1 : Nat) < U32 ∧ (1 : Nat) < U32) ∧
    ((writei exFs exFile exSrc 1 1 = some (-1, exFs, exFile) ↔
      exFile.size < 1 ∨ U32 ≤ 1 + 1 ∨ MAXFILE * BSIZE < 1 + 1) ∧
    (∀ r fs' ip', writei exFs exFile exSrc 1 1 = some (r, fs', ip') → r = -1 →
      fs' = exFs ∧ ip' = exFile)) :=
  ⟨⟨by decide, by decide, by decide⟩,
    writei_fail_iff exFs exFile exSrc 1 1 (by decide) (by decide) (by decide)⟩

/-! ### Path resolution of empty and all-slash paths (C6) -/

/-- C6 (counterexample to the claim as stated): `namei("")` returns the
current working directory's inode (handle 2 here), and `namei("////")`
returns the root inode — neither is absent. -/
theorem namei_empty_counterexample :
    namei exFs 2 [] = some (some 2, [], exFs) ∧
    namei exFs 2 [47, 47, 47, 47] = some (some ROOTINO, [], exFs) ∧
    ROOTINO = 1 := by
  refine ⟨?_, ?_, rfl⟩ <;>
    simp [namei, namex, namexLoop, skipelem, skipSlashes, cAtEnd, ROOTINO]

/-- C6 (corrected): for the empty path and for any path consisting only
of slashes, `namei` returns the starting inode — the current working
directory's handle for a relative path, the root inode for an absolute
one — while `nameiparent` on such a path reports absent. -/
theorem namei_slashes_resolve (fs : FsState) (cwd : Nat) (path : List Nat)
    (h : cAtEnd (skipSlashes path) = true) :
    namei fs cwd path =
      some (some (if path.headD 0 = 47 then ROOTINO else cwd), [], fs) ∧
    nameiparent fs cwd path = some (none, [], fs) := by
  have hsk : skipelem path = none := by simp [skipelem, h]
  constructor
  · unfold namei namex
    rw [namexLoop.eq_def]
    split
    · rfl
    · rename_i heq
      rw [hsk] at heq
      cases heq
  · unfold nameiparent namex
    rw [namexLoop.eq_def]
    split
    · rfl
    · rename_i heq
      rw [hsk] at heq
      cases heq

/-- Witness for `namei_slashes_resolve` at the all-slash path `"////"`. -/
theorem namei_slashes_resolve_witness :
    cAtEnd (skipSlashes [47, 47, 47, 47]) = true ∧
    (namei exFs 2 [47, 47, 47, 47] =
      some (some (if ([47, 47, 47, 47] : List Nat).headD 0 = 47
        then ROOTINO else 2), [], exFs) ∧
    nameiparent exFs 2 [47, 47, 47, 47] = some (none, [], exFs)) :=
  ⟨by decide, namei_slashes_resolve exFs 2 [47, 47, 47, 47] (by decide)⟩

end OS
